import Mathlib

/-!
The go-by-example programs: rate limiting, timeouts, worker pools and the small examples.

A shallow embedding of the token bucket of `rate-limiting.go`, the circuit
breaker and the retry loop of `timeouts.go`, the circuit-breaker worker of
`worker-pools.go`, and of functions of `custom-errors.go`, `recover.go`,
`testing-and-benchmarking.go`, `recursion.go`, `generics.go`, `enums.go` and
`tcp-server.go`, together with the properties their design document states about them.

Conventions of the embedding:

* Go `int` is the 64-bit two's-complement integer of the usual targets; a value
  is an `Int`, and every `+`, `*`, `++`, `--` of the source is followed by
  `wrapInt`, the reduction into `[-2^63, 2^63 - 1]`.
* A `time.Time` is its position on the clock in nanoseconds, a
  `time.Duration` a number of nanoseconds.  `time.Now()` is an argument of the
  step that reads it.  Between two values of `time.Now()` the position is the
  reading of the monotonic clock, the one `Sub` and `Since` subtract; `Reading`
  keeps the reading of the wall clock next to it.
* A mutex that brackets a whole step is not represented: the step is atomic.
* A recursion or a loop whose end depends on machine arithmetic takes a bound on its depth
  as first argument and ends in `Exec.outOfFuel` when the bound is used up; a panic is the
  result `Exec.panicked`.
-/

namespace GoByExample

/-! ## Machine integers and time -/

/-- Largest value of a Go `int` (and of a `time.Duration`) on a 64-bit target. -/
def maxInt64 : Int := 9223372036854775807

/-- Smallest value of a Go `int` (and of a `time.Duration`) on a 64-bit target. -/
def minInt64 : Int := -9223372036854775808

/-- Two's-complement wrap-around of an arithmetic result into the range of a Go `int`. -/
def wrapInt (x : Int) : Int :=
  (x + 9223372036854775808) % 18446744073709551616 - 9223372036854775808

/-- Difference `t.Sub(u)` of two clock readings: `t - u` in nanoseconds, saturated
to the range of `time.Duration` as `time.Time.Sub` does. -/
def timeSub (t u : Int) : Int :=
  if t - u > maxInt64 then maxInt64
  else if t - u < minInt64 then minInt64
  else t - u

/-- Nanoseconds in a second (`time.Second`). -/
def nanosPerSecond : Int := 1000000000

/-- Conversion `int(d.Seconds())` of a duration: the number of whole seconds, truncated
toward zero.  `Seconds()` is the float `sec + nsec/1e9`; the truncation of that float is
the integer quotient below (exactly so for every duration shorter than 2^24 seconds). -/
def wholeSeconds (d : Int) : Int := Int.tdiv d nanosPerSecond

namespace RateLimiting

/-! ## `rate-limiting.go`: the token bucket -/

/-- Fields of `TokenBucket` (the mutex `mu` brackets `takeToken` and is not a field here). -/
structure TokenBucket where
  tokens : Int
  maxTokens : Int
  refillRate : Int
  lastRefill : Int
  deriving DecidableEq, Repr

/-- Bucket built by the example: `maxTokens: 5, tokens: 5, refillRate: 2`, `lastRefill`
the clock reading at construction. -/
def bucket (start : Int) : TokenBucket :=
  { tokens := 5, maxTokens := 5, refillRate := 2, lastRefill := start }

/-- Refill step of `takeToken` (the lines under `// Refill tokens`), with `now` the value
of `time.Now()`. -/
def refill (b : TokenBucket) (now : Int) : TokenBucket :=
  let elapsed := timeSub now b.lastRefill
  let tokensToAdd := wrapInt (wholeSeconds elapsed * b.refillRate)
  let tokens := wrapInt (b.tokens + tokensToAdd)
  let tokens := if tokens > b.maxTokens then b.maxTokens else tokens
  { b with tokens := tokens, lastRefill := now }

/-- Closure `takeToken`: refill, then take a token when one is there.  Returns the
boolean of the source and the bucket it leaves behind. -/
def takeToken (b : TokenBucket) (now : Int) : Bool × TokenBucket :=
  let b := refill b now
  if b.tokens > 0 then
    (true, { b with tokens := wrapInt (b.tokens - 1) })
  else
    (false, b)

/-- Loop of calls to `takeToken`, one per clock reading: the booleans returned, in order,
and the final bucket. -/
def takeTokens (b : TokenBucket) : List Int → List Bool × TokenBucket
  | [] => ([], b)
  | now :: rest =>
    let r := takeToken b now
    let rs := takeTokens r.2 rest
    (r.1 :: rs.1, rs.2)

/-- Number of tokens the design document asks the refill to add: `floor(elapsed *
refillPerSecond)` for an elapsed time given in nanoseconds. -/
def specTokensToAdd (elapsed refillRate : Int) : Int :=
  (elapsed * refillRate) / nanosPerSecond

/-- Bucket with a refill rate of 2^62 tokens per second, empty, last refilled at clock 0. -/
def fastBucket : TokenBucket :=
  { tokens := 0, maxTokens := 5, refillRate := 4611686018427387904, lastRefill := 0 }

/-- Bucket of the example once drained: no token left, last refilled at clock 0. -/
def drainedBucket : TokenBucket :=
  { tokens := 0, maxTokens := 5, refillRate := 2, lastRefill := 0 }

/-- Value of `time.Now()`: the reading of the wall clock and the reading of the monotonic
clock of the process, both in nanoseconds.  The wall clock can be set back; the monotonic
clock cannot. -/
structure Reading where
  wall : Int
  mono : Int
  deriving DecidableEq, Repr

/-- Difference `t.Sub(u)` of two values of `time.Now()`: both carry a monotonic reading, and
`Sub` then subtracts the monotonic readings (saturated), whatever the wall clocks read. -/
def Reading.Sub (t u : Reading) : Int := timeSub t.mono u.mono

/-- Fields of `TokenBucket` with `lastRefill` as the value of `time.Now()` that is stored in
it, wall clock reading included. -/
structure TimedBucket where
  tokens : Int
  maxTokens : Int
  refillRate : Int
  lastRefill : Reading
  deriving DecidableEq, Repr

/-- Closure `takeToken` on a bucket that keeps both readings of `lastRefill`, with `now` the
value of `time.Now()`. -/
def takeTokenAt (b : TimedBucket) (now : Reading) : Bool × TimedBucket :=
  let elapsed := now.Sub b.lastRefill
  let tokensToAdd := wrapInt (wholeSeconds elapsed * b.refillRate)
  let tokens := wrapInt (b.tokens + tokensToAdd)
  let tokens := if tokens > b.maxTokens then b.maxTokens else tokens
  let b := { b with tokens := tokens, lastRefill := now }
  if b.tokens > 0 then
    (true, { b with tokens := wrapInt (b.tokens - 1) })
  else
    (false, b)

/-- Bucket of a `TimedBucket` as `TokenBucket` has it: `lastRefill` is the monotonic
reading. -/
def TimedBucket.monotonic (b : TimedBucket) : TokenBucket :=
  { tokens := b.tokens, maxTokens := b.maxTokens, refillRate := b.refillRate,
    lastRefill := b.lastRefill.mono }

/-- Bucket of the example once drained, last refilled when the wall clock read 10 s and the
monotonic clock 0 s. -/
def jumpedBucket : TimedBucket :=
  { tokens := 0, maxTokens := 5, refillRate := 2,
    lastRefill := { wall := 10000000000, mono := 0 } }

/-- Value of `time.Now()` two seconds later, after the wall clock was set back to 5 s. -/
def afterJump : Reading := { wall := 5000000000, mono := 2000000000 }

/-- Value of `time.Now()` half a second later, after the wall clock was set back to 5 s. -/
def soonAfterJump : Reading := { wall := 5000000000, mono := 500000000 }

end RateLimiting

namespace Timeouts

/-! ## `timeouts.go`: the circuit breaker of example 12 -/

/-- Fields of `CircuitBreaker`: `timeout` is a `time.Duration`, `lastFailure` a `time.Time`. -/
structure CircuitBreaker where
  failures : Int
  maxFailures : Int
  timeout : Int
  lastFailure : Int
  deriving DecidableEq, Repr

/-- What the `select` of `Call` observes: a result received on `ch`, or the 100 ms timer
firing first. -/
inductive Outcome where
  | received (result : String)
  | timedOut
  deriving DecidableEq, Repr

/-- Simulated operation run by the goroutine of `Call`, as the `select` sees it: when the
Unix time it reads is even it sleeps past the timer and sends nothing, otherwise it sends
"success" after 50 ms. -/
def operation (unixSeconds : Int) : Outcome :=
  if unixSeconds % 2 = 0 then Outcome.timedOut else Outcome.received "success"

/-- Values returned by `Call` and the state it leaves: `result` and `err` are the two
return values, `started` records whether the goroutine running the operation was
launched, `cb` is the breaker after the call. -/
structure CallResult where
  result : String
  err : Option String
  started : Bool
  cb : CircuitBreaker
  deriving DecidableEq, Repr

/-- Error of a call rejected by the open circuit. -/
def errOpen : String := "circuit breaker is open"

/-- Error of a call whose operation timed out: `operation timed out, failures: %d`. -/
def errTimedOut (failures : Int) : String :=
  "operation timed out, failures: " ++ toString failures

/-- Second half of `Call`, reached when the call is admitted: the goroutine is started and
the `select` either receives its result or sees the timer fire. -/
def attempt (cb : CircuitBreaker) (outcome : Outcome) (failedAt : Int) : CallResult :=
  match outcome with
  | Outcome.received result =>
    { result := result, err := none, started := true, cb := { cb with failures := 0 } }
  | Outcome.timedOut =>
    let cb := { cb with failures := wrapInt (cb.failures + 1) }
    let cb := { cb with lastFailure := failedAt }
    { result := "", err := some (errTimedOut cb.failures), started := true, cb := cb }

/-- Method `Call`.  `now` is the clock read by `time.Since` in the open check, `outcome` what
the `select` observes if the operation is started, `failedAt` the clock read by
`time.Now()` when a timeout is recorded. -/
def Call (cb : CircuitBreaker) (now : Int) (outcome : Outcome) (failedAt : Int) : CallResult :=
  if cb.failures ≥ cb.maxFailures then
    if timeSub now cb.lastFailure < cb.timeout then
      { result := "", err := some errOpen, started := false, cb := cb }
    else
      attempt { cb with failures := 0 } outcome failedAt
  else
    attempt cb outcome failedAt

/-- One invocation of `Call` as the environment determines it: the clock at the open check,
the outcome of the operation, the clock when a timeout is recorded. -/
structure CallInput where
  now : Int
  outcome : Outcome
  failedAt : Int
  deriving DecidableEq, Repr

/-- Successive invocations of `Call` on one breaker: what each returned, in order, and the
breaker after the last. -/
def calls (cb : CircuitBreaker) : List CallInput → List CallResult × CircuitBreaker
  | [] => ([], cb)
  | c :: rest =>
    let r := Call cb c.now c.outcome c.failedAt
    let rs := calls r.cb rest
    (r :: rs.1, rs.2)

/-- Breaker built by the example: `maxFailures: 2, timeout: 500 * time.Millisecond`, no
failure counted; `lastFailure` is the zero time, taken as the origin of the clock. -/
def breaker : CircuitBreaker :=
  { failures := 0, maxFailures := 2, timeout := 500000000, lastFailure := 0 }

/-- Two calls that time out, at 1.0 s and 1.2 s, the timeouts recorded at 1.1 s and 1.3 s. -/
def twoFailures : List CallInput :=
  [{ now := 1000000000, outcome := Outcome.timedOut, failedAt := 1100000000 },
   { now := 1200000000, outcome := Outcome.timedOut, failedAt := 1300000000 }]

/-- Two calls made at 1.4 s and 1.7 s, less than 500 ms after a failure recorded at 1.3 s. -/
def earlyCalls : List CallInput :=
  [{ now := 1400000000, outcome := Outcome.received "success", failedAt := 1500000000 },
   { now := 1700000000, outcome := Outcome.timedOut, failedAt := 1800000000 }]

/-- Five calls: two that time out (1.0 s, 1.2 s), one at 1.4 s, one at 1.9 s that times out
at 2.0 s, and one at 2.1 s whose operation would succeed. -/
def trialTrace : List CallInput :=
  [{ now := 1000000000, outcome := Outcome.timedOut, failedAt := 1100000000 },
   { now := 1200000000, outcome := Outcome.timedOut, failedAt := 1300000000 },
   { now := 1400000000, outcome := Outcome.received "success", failedAt := 1500000000 },
   { now := 1900000000, outcome := Outcome.timedOut, failedAt := 2000000000 },
   { now := 2100000000, outcome := Outcome.received "success", failedAt := 2200000000 }]

/-- Four calls: three that time out (at 1.0 s, 1.2 s, and at 1.9 s, 600 ms after the second
timeout was recorded), and one at 2.1 s, 100 ms after the third timeout was recorded,
whose operation would succeed. -/
def resetTrace : List CallInput :=
  [{ now := 1000000000, outcome := Outcome.timedOut, failedAt := 1100000000 },
   { now := 1200000000, outcome := Outcome.timedOut, failedAt := 1300000000 },
   { now := 1900000000, outcome := Outcome.timedOut, failedAt := 2000000000 },
   { now := 2100000000, outcome := Outcome.received "success", failedAt := 2200000000 }]

/-- Breaker of the example after two failures, the last recorded at 1.3 s. -/
def openBreaker : CircuitBreaker :=
  { failures := 2, maxFailures := 2, timeout := 500000000, lastFailure := 1300000000 }

/-- Breaker with a threshold of one failure, open since a failure recorded at 1.3 s. -/
def singleFailureBreaker : CircuitBreaker :=
  { failures := 1, maxFailures := 1, timeout := 500000000, lastFailure := 1300000000 }

end Timeouts

namespace WorkerPools

/-! ## `worker-pools.go`: the worker of example 12 -/

/-- Parameter `cb` of `circuitBreakerWorker`, `struct{failures int; maxFailures int; open
bool}`.  The field `open` is `isOpen` here, `open` being a keyword. -/
structure CircuitBreaker where
  failures : Int
  maxFailures : Int
  isOpen : Bool
  deriving DecidableEq, Repr

/-- Condition `j >= 4 && j <= 6` under which the worker simulates a failure. -/
def jobFails (j : Int) : Bool := decide (j ≥ 4) && decide (j ≤ 6)

/-- Result sent for a job met while the breaker is open. -/
def rejectedMsg (id j : Int) : String :=
  "Worker " ++ toString id ++ ": Circuit breaker OPEN, job " ++ toString j ++ " rejected"

/-- Result sent for a job that failed. -/
def failedMsg (id j : Int) : String :=
  "Worker " ++ toString id ++ ": Job " ++ toString j ++ " failed"

/-- Result sent for a job that succeeded. -/
def succeededMsg (id j : Int) : String :=
  "Worker " ++ toString id ++ ": Job " ++ toString j ++ " succeeded"

/-- Line printed when the worker starts executing a job. -/
def processingLine (id j : Int) : String :=
  "Worker " ++ toString id ++ " processing job " ++ toString j

/-- Line printed when an executed job fails. -/
def failureLine (id j failures : Int) : String :=
  "Worker " ++ toString id ++ ": Job " ++ toString j ++ " failed (failures: " ++
    toString failures ++ ")"

/-- Effect of one iteration of the loop of `circuitBreakerWorker`: the strings sent on
`results`, the lines printed, the breaker afterwards. -/
structure Iteration where
  sent : List String
  printed : List String
  cb : CircuitBreaker
  deriving DecidableEq, Repr

/-- Body of the loop `for j := range jobs` of `circuitBreakerWorker`, for the job `j`. -/
def processJob (id : Int) (cb : CircuitBreaker) (j : Int) : Iteration :=
  if cb.isOpen then
    { sent := [rejectedMsg id j], printed := [], cb := cb }
  else if jobFails j then
    let cb := { cb with failures := wrapInt (cb.failures + 1) }
    let line := failureLine id j cb.failures
    if cb.failures ≥ cb.maxFailures then
      { sent := [failedMsg id j],
        printed := [processingLine id j, line, "Circuit breaker OPENED"],
        cb := { cb with isOpen := true } }
    else
      { sent := [failedMsg id j], printed := [processingLine id j, line], cb := cb }
  else
    { sent := [succeededMsg id j], printed := [processingLine id j], cb := cb }

/-- Function `circuitBreakerWorker` run by one worker over the jobs it receives until the
channel is closed: everything sent on `results`, everything printed, and the breaker at
the end. -/
def circuitBreakerWorker (id : Int) (cb : CircuitBreaker) : List Int → Iteration
  | [] => { sent := [], printed := [], cb := cb }
  | j :: rest =>
    let it := processJob id cb j
    let tail := circuitBreakerWorker id it.cb rest
    { sent := it.sent ++ tail.sent, printed := it.printed ++ tail.printed, cb := tail.cb }

/-- Breaker built by `circuitBreakerPool`: `&CircuitBreaker{maxFailures: 3}`. -/
def poolBreaker : CircuitBreaker := { failures := 0, maxFailures := 3, isOpen := false }

/-- Breaker as `circuitBreakerPool` builds it, for a threshold `maxFailures`: closed, no
failure counted. -/
def newBreaker (maxFailures : Int) : CircuitBreaker :=
  { failures := 0, maxFailures := maxFailures, isOpen := false }

/-- Number of jobs of a list on which the worker simulates a failure. -/
def failingJobs (jobs : List Int) : Nat := jobs.countP jobFails

end WorkerPools

/-! ## Panics and bounded recursion -/

/-- Ways the run of a function ends: it returns a value, it panics with a fault value (shown
as `%v` prints it), or the bound on recursion or iteration given to the embedding is used up
before either happens. -/
inductive Exec (α : Type) where
  | returned (value : α)
  | panicked (fault : String)
  | outOfFuel
  deriving DecidableEq, Repr

/-- Fault of the run time for an index `i` outside a slice of length `len`. -/
def indexFault (i : Int) (len : Nat) : String :=
  "runtime error: index out of range [" ++ toString i ++ "] with length " ++ toString len

/-- Read `arr[i]` of a slice of ints: `none` when `i` is out of range, where Go panics. -/
def index (arr : List Int) (i : Int) : Option Int :=
  if 0 ≤ i then arr[i.toNat]? else none

namespace Timeouts

/-! ## `timeouts.go`: the retry loop of example 7 -/

/-- Values returned by `operationWithRetry`, with `attempts` the number of attempts started
(the goroutines launched, one per line `Attempt %d` printed). -/
structure RetryResult where
  result : String
  err : Option String
  attempts : Nat
  deriving DecidableEq, Repr

/-- Message sent by the goroutine of an attempt: `success on attempt %d`. -/
def successMsg (attempt : Int) : String := "success on attempt " ++ toString attempt

/-- Error returned when the last attempt times out: `operation failed after %d attempts`. -/
def errFailedAfter (maxRetries : Int) : String :=
  "operation failed after " ++ toString maxRetries ++ " attempts"

/-- Error of the statement that follows the loop. -/
def errNotReached : String := "should not reach here"

/-- Loop `for attempt := 1; attempt <= maxRetries; attempt++` of `operationWithRetry`, from
the value `attempt` of the loop variable, with `attempts` attempts started so far.
`timesOut k` tells whether, in attempt `k`, the timer of the `select` fires before the
goroutine sends its message.  The first argument bounds the number of iterations. -/
def retryLoop (maxRetries : Int) (timesOut : Int → Bool) :
    Nat → Int → Nat → Exec RetryResult
  | 0, _, _ => Exec.outOfFuel
  | fuel + 1, attempt, attempts =>
    if attempt ≤ maxRetries then
      if timesOut attempt then
        if attempt = maxRetries then
          Exec.returned
            { result := "", err := some (errFailedAfter maxRetries), attempts := attempts + 1 }
        else
          retryLoop maxRetries timesOut fuel (wrapInt (attempt + 1)) (attempts + 1)
      else
        Exec.returned
          { result := successMsg attempt, err := none, attempts := attempts + 1 }
    else
      Exec.returned { result := "", err := some errNotReached, attempts := attempts }

/-- Closure `operationWithRetry(maxRetries, timeout)`: the loop from `attempt := 1`.  The
timeout acts through `timesOut`; `fuel` bounds the number of iterations. -/
def operationWithRetry (fuel : Nat) (maxRetries : Int) (timesOut : Int → Bool) :
    Exec RetryResult :=
  retryLoop maxRetries timesOut fuel 1 0

/-- Pattern of outcomes of the example: with a timeout of 100 ms the goroutine of attempt
`k`, which sleeps `k * 50` ms, is too late from the second attempt on. -/
def lateFromSecond (attempt : Int) : Bool := decide (attempt ≥ 2)

end Timeouts

namespace Recover

/-! ## `recover.go`: example 3 -/

/-- Assignment `slice[i] = v`: the slice with the element replaced, or the panic of the run
time when `i` is out of range. -/
def setIndex (slice : List Int) (i v : Int) : Exec (List Int) :=
  if 0 ≤ i ∧ i < slice.length then Exec.returned (slice.set i.toNat v)
  else Exec.panicked (indexFault i slice.length)

/-- Body of `safeOperation` below the `defer`: `var slice []int; slice[0] = 1; return nil`.
The value returned is the error, `none` for `nil`. -/
def safeOperationBody : Exec (Option String) :=
  match setIndex [] 0 1 with
  | Exec.returned _ => Exec.returned none
  | Exec.panicked fault => Exec.panicked fault
  | Exec.outOfFuel => Exec.outOfFuel

/-- Deferred closure of `safeOperation` around a body with the named result `err`: when the
body panics, `recover()` yields the fault and the function returns normally with
`err = fmt.Errorf("panic recovered: %v", r)`; otherwise `recover()` is nil and the result of
the body stands. -/
def withRecover (body : Exec (Option String)) : Exec (Option String) :=
  match body with
  | Exec.panicked fault => Exec.returned (some ("panic recovered: " ++ fault))
  | Exec.returned err => Exec.returned err
  | Exec.outOfFuel => Exec.outOfFuel

/-- Closure `safeOperation`. -/
def safeOperation : Exec (Option String) := withRecover safeOperationBody

end Recover

namespace Testing

/-! ## `testing-and-benchmarking.go` -/

/-- Function `Add`: `return a + b` on Go ints. -/
def Add (a b : Int) : Int := wrapInt (a + b)

/-- Function `Multiply`: `return a * b` on Go ints. -/
def Multiply (a b : Int) : Int := wrapInt (a * b)

end Testing

namespace Recursion

/-! ## `recursion.go`: binary search and greatest common divisor -/

/-- Function `binarySearch(arr, target, left, right)`; the first argument bounds the depth
of the recursion.  Go `/` on ints truncates toward zero. -/
def binarySearch : Nat → List Int → Int → Int → Int → Exec Int
  | 0, _, _, _, _ => Exec.outOfFuel
  | fuel + 1, arr, target, left, right =>
    if left > right then Exec.returned (-1)
    else
      let mid := wrapInt (left + Int.tdiv (wrapInt (right - left)) 2)
      match index arr mid with
      | none => Exec.panicked (indexFault mid arr.length)
      | some v =>
        if v = target then Exec.returned mid
        else if v > target then binarySearch fuel arr target left (wrapInt (mid - 1))
        else binarySearch fuel arr target (wrapInt (mid + 1)) right

/-- Function `gcd(a, b)`.  Go `%` on ints is the truncated remainder. -/
def gcd (a b : Int) : Int :=
  if b = 0 then a else gcd b (Int.tmod a b)
termination_by b.natAbs
decreasing_by
  have hmod : (Int.tmod a b).natAbs = a.natAbs % b.natAbs := by
    cases a <;> cases b <;> simp [Int.tmod] <;> rfl
  rw [hmod]
  exact Nat.mod_lt _ (by omega)

/-- Slice searched by the example. -/
def sorted : List Int := [1, 3, 5, 7, 9, 11, 13, 15, 17, 19]

end Recursion

namespace Generics

/-! ## `generics.go`: the stack -/

/-- Type `Stack[T]`: the slice `items`, the top of the stack last. -/
structure Stack (T : Type) where
  items : List T
  deriving DecidableEq, Repr

/-- Method `Push`: `s.items = append(s.items, item)`. -/
def Stack.Push {T : Type} (s : Stack T) (item : T) : Stack T :=
  { items := s.items ++ [item] }

/-- Method `Pop`: the item and the error returned, and the stack afterwards.  The zero value
of `T` is `default`. -/
def Stack.Pop {T : Type} [Inhabited T] (s : Stack T) : (T × Option String) × Stack T :=
  if s.items.length = 0 then
    ((default, some "stack is empty"), s)
  else
    let index := s.items.length - 1
    let item := s.items.getD index default
    ((item, none), { items := s.items.take index })

end Generics

namespace Enums

/-! ## `enums.go`: example 5 -/

/-- Type `Priority`, an `int`. -/
abbrev Priority := Int

/-- Constant `PriorityLow` (`iota` 0). -/
def PriorityLow : Priority := 0

/-- Constant `PriorityMedium`. -/
def PriorityMedium : Priority := 1

/-- Constant `PriorityHigh`. -/
def PriorityHigh : Priority := 2

/-- Constant `PriorityCritical`. -/
def PriorityCritical : Priority := 3

/-- Method `String` of `Priority`. -/
def PriorityString (p : Priority) : String :=
  if p = PriorityLow then "Low"
  else if p = PriorityMedium then "Medium"
  else if p = PriorityHigh then "High"
  else if p = PriorityCritical then "Critical"
  else "Invalid"

/-- Function `ParsePriority`: the priority and the error returned. -/
def ParsePriority (s : String) : Priority × Option String :=
  if s = "Low" then (PriorityLow, none)
  else if s = "Medium" then (PriorityMedium, none)
  else if s = "High" then (PriorityHigh, none)
  else if s = "Critical" then (PriorityCritical, none)
  else (PriorityLow, some ("invalid priority: " ++ s))

end Enums

namespace TcpServer

/-! ## `tcp-server.go`: the command handler -/

/-- White space as `unicode.IsSpace` defines it. -/
def isSpace (c : Char) : Bool :=
  c.val = 0x20 || (0x09 ≤ c.val && c.val ≤ 0x0D) || c.val = 0x85 || c.val = 0xA0 ||
    c.val = 0x1680 || (0x2000 ≤ c.val && c.val ≤ 0x200A) || c.val = 0x2028 ||
    c.val = 0x2029 || c.val = 0x202F || c.val = 0x205F || c.val = 0x3000

/-- Function `strings.TrimSpace`: leading and trailing white space removed. -/
def TrimSpace (s : String) : String :=
  String.mk ((s.data.dropWhile isSpace).reverse.dropWhile isSpace).reverse

/-- Function `strings.ToLower`, on the letters `A` to `Z`; other characters are kept. -/
def ToLower (s : String) : String := String.mk (s.data.map Char.toLower)

/-- Function `strings.HasPrefix`. -/
def HasPrefix (s p : String) : Bool := p.data.isPrefixOf s.data

/-- Function `strings.TrimPrefix`. -/
def TrimPrefix (s p : String) : String :=
  if HasPrefix s p then String.mk (s.data.drop p.data.length) else s

/-- Function `handleCommand`.  `clock` and `date` stand for `time.Now()` formatted as
`15:04:05` and as `2006-01-02`. -/
def handleCommand (message clock date : String) : String :=
  let msg := ToLower (TrimSpace message)
  if msg = "help" then
    "Available commands: help, time, date, echo <text>, status, quit"
  else if msg = "time" then "Current time: " ++ clock
  else if msg = "date" then "Current date: " ++ date
  else if msg = "status" then "Server is running and healthy"
  else if msg = "" then "Please enter a command (try 'help')"
  else if HasPrefix msg "echo " then TrimPrefix msg "echo "
  else "Unknown command: " ++ message ++ ". Type 'help' for available commands."

end TcpServer

namespace Recursion

/-! ## `recursion.go`: the Fibonacci functions -/

/-- Function `fibonacci(n)`. -/
def fibonacci (n : Int) : Int :=
  if n ≤ 1 then n
  else wrapInt (fibonacci (wrapInt (n - 1)) + fibonacci (wrapInt (n - 2)))
termination_by n.toNat
decreasing_by
  all_goals simp_wf
  all_goals unfold wrapInt
  all_goals omega

/-- Map `memo` of type `map[int]int`: the value stored at each key, `none` for a key that is
absent. -/
abbrev Memo := Int → Option Int

/-- Map made by `make(map[int]int)`. -/
def emptyMemo : Memo := fun _ => none

/-- Assignment `memo[k] = v`. -/
def Memo.store (memo : Memo) (k v : Int) : Memo :=
  fun x => if x = k then some v else memo x

/-- Read `memo[k]` as a value: the zero value for a key that is absent. -/
def Memo.read (memo : Memo) (k : Int) : Int := (memo k).getD 0

/-- Function `memoizedFibonacci(n, memo)`: the value returned and the map afterwards.  The
two recursive calls of the sum run from left to right on the same map. -/
def memoizedFibonacci (n : Int) (memo : Memo) : Int × Memo :=
  if n ≤ 1 then (n, memo)
  else
    match memo n with
    | some val => (val, memo)
    | none =>
      let first := memoizedFibonacci (wrapInt (n - 1)) memo
      let second := memoizedFibonacci (wrapInt (n - 2)) first.2
      let memo := second.2.store n (wrapInt (first.1 + second.1))
      (memo.read n, memo)
termination_by n.toNat
decreasing_by
  all_goals simp_wf
  all_goals unfold wrapInt
  all_goals omega

/-- Property of a map that holds only Fibonacci values: the value stored at a key `k` is
`fibonacci(k)`. -/
def MemoOk (memo : Memo) : Prop := ∀ k v, memo k = some v → v = fibonacci k

end Recursion

namespace CustomErrors

/-! ## `custom-errors.go`: the retry policy of example 11 -/

/-- Type `RetryPolicy`.  The delays are `time.Duration`s, in nanoseconds; `BackoffFactor` is
the rational number that the `float64` denotes. -/
structure RetryPolicy where
  MaxRetries : Int
  InitialDelay : Int
  MaxDelay : Int
  BackoffFactor : ℚ
  deriving DecidableEq, Repr

/-- Type `RetryableError`; `LastError` is the message of the error it wraps. -/
structure RetryableError where
  Operation : String
  RetryPolicy : RetryPolicy
  Attempt : Int
  LastError : String
  deriving DecidableEq, Repr

/-- Method `NextDelay`.  The argument `converted` is the value of
`time.Duration(float64(InitialDelay) * pow(BackoffFactor, float64(Attempt)))`: a product of
`float64`s converted to a whole number of nanoseconds.  That arithmetic is not represented;
the method is what follows it, the comparison with `MaxDelay`. -/
def NextDelay (re : RetryableError) (converted : Int) : Int :=
  let delay := converted
  if delay > re.RetryPolicy.MaxDelay then re.RetryPolicy.MaxDelay else delay

/-- Delay the design document gives before the attempt that follows `Attempt` attempts:
`min(initialDelay * backoffFactor^a, maxDelay)`, as a rational number of nanoseconds. -/
def specNextDelay (re : RetryableError) : ℚ :=
  min ((re.RetryPolicy.InitialDelay : ℚ) * re.RetryPolicy.BackoffFactor ^ re.Attempt.toNat)
    (re.RetryPolicy.MaxDelay : ℚ)

/-- Error built by the example: initial delay 1 s, at most 30 s, factor 2.0, one attempt
made. -/
def retryErr : RetryableError :=
  { Operation := "send_email",
    RetryPolicy :=
      { MaxRetries := 3, InitialDelay := 1000000000, MaxDelay := 30000000000,
        BackoffFactor := 2 },
    Attempt := 1,
    LastError := "SMTP server busy" }

/-- Error with an initial delay of 3 ns and a factor of 0.5, one attempt made. -/
def halvingErr : RetryableError :=
  { Operation := "send_email",
    RetryPolicy :=
      { MaxRetries := 3, InitialDelay := 3, MaxDelay := 30000000000,
        BackoffFactor := 1 / 2 },
    Attempt := 1,
    LastError := "SMTP server busy" }

end CustomErrors

/-! ## Arithmetic of the embedding -/

theorem wrapInt_of_range {x : Int} (h1 : minInt64 ≤ x) (h2 : x ≤ maxInt64) :
    wrapInt x = x := by
  unfold minInt64 at h1
  unfold maxInt64 at h2
  unfold wrapInt
  omega

theorem wrapInt_range (x : Int) : minInt64 ≤ wrapInt x ∧ wrapInt x ≤ maxInt64 := by
  unfold minInt64 maxInt64 wrapInt
  omega

theorem wrapInt_congruent (x : Int) : (wrapInt x - x) % 18446744073709551616 = 0 := by
  unfold wrapInt
  omega

theorem timeSub_self (t : Int) : timeSub t t = 0 := by
  simp [timeSub, maxInt64, minInt64]

theorem timeSub_range (t u : Int) : minInt64 ≤ timeSub t u ∧ timeSub t u ≤ maxInt64 := by
  unfold timeSub minInt64 maxInt64
  split_ifs <;> omega

theorem timeSub_nonneg {t u : Int} (h : u ≤ t) : 0 ≤ timeSub t u := by
  unfold timeSub minInt64 maxInt64
  split_ifs <;> omega

theorem wholeSeconds_zero : wholeSeconds 0 = 0 := by
  simp [wholeSeconds]

theorem wholeSeconds_nonneg {d : Int} (h : 0 ≤ d) : 0 ≤ wholeSeconds d := by
  unfold wholeSeconds nanosPerSecond
  exact Int.tdiv_nonneg h (by decide)

theorem wholeSeconds_le {d : Int} (h0 : 0 ≤ d) (h : d ≤ maxInt64) :
    wholeSeconds d ≤ 9223372036 := by
  unfold wholeSeconds nanosPerSecond
  unfold maxInt64 at h
  rw [Int.tdiv_eq_ediv h0 (by decide)]
  omega

theorem wholeSeconds_of_short {d : Int} (h1 : 0 ≤ d) (h2 : d < nanosPerSecond) :
    wholeSeconds d = 0 := by
  unfold wholeSeconds
  exact Int.tdiv_eq_zero_of_lt h1 h2

namespace RateLimiting

/-! ## The token bucket -/

theorem refill_tokens_le (b : TokenBucket) (now : Int) : (refill b now).tokens ≤ maxInt64 := by
  have h := wrapInt_range
    (b.tokens + wrapInt (wholeSeconds (timeSub now b.lastRefill) * b.refillRate))
  simp only [refill]
  split_ifs with hc
  · omega
  · exact h.2

theorem takeToken_of_pos {b : TokenBucket} {now : Int} (h : 0 < (refill b now).tokens) :
    takeToken b now
      = (true, { refill b now with tokens := (refill b now).tokens - 1 }) := by
  have hle := refill_tokens_le b now
  have hw : wrapInt ((refill b now).tokens - 1) = (refill b now).tokens - 1 :=
    wrapInt_of_range (by unfold minInt64; omega) (by omega)
  simp only [takeToken, gt_iff_lt, h, if_true, hw]

theorem takeToken_of_not_pos {b : TokenBucket} {now : Int} (h : ¬ 0 < (refill b now).tokens) :
    takeToken b now = (false, refill b now) := by
  simp only [takeToken, gt_iff_lt, h, if_false]

/-- The refill of a call made after a forward step of the clock adds a number of tokens
between 0 and `9223372036 * refillRate`. -/
theorem tokensToAdd_bounds {b : TokenBucket} {now : Int} (hr : 0 ≤ b.refillRate)
    (hnow : b.lastRefill ≤ now) :
    0 ≤ wholeSeconds (timeSub now b.lastRefill) * b.refillRate ∧
      wholeSeconds (timeSub now b.lastRefill) * b.refillRate
        ≤ 9223372036 * b.refillRate := by
  have h0 := timeSub_nonneg hnow
  have hs0 := wholeSeconds_nonneg h0
  have hs1 := wholeSeconds_le h0 (timeSub_range now b.lastRefill).2
  exact ⟨Int.mul_nonneg hs0 hr, Int.mul_le_mul_of_nonneg_right hs1 hr⟩

/-- One call keeps the token count in `[0, maxTokens]` when the refill cannot overflow. -/
theorem takeToken_keeps_range {b : TokenBucket} {now : Int}
    (h0 : 0 ≤ b.tokens) (h1 : b.tokens ≤ b.maxTokens) (hr : 0 ≤ b.refillRate)
    (hfit : b.maxTokens + 9223372036 * b.refillRate ≤ maxInt64)
    (hnow : b.lastRefill ≤ now) :
    0 ≤ (takeToken b now).2.tokens ∧ (takeToken b now).2.tokens ≤ b.maxTokens ∧
      (takeToken b now).2.maxTokens = b.maxTokens ∧
      (takeToken b now).2.refillRate = b.refillRate ∧
      (takeToken b now).2.lastRefill = now := by
  obtain ⟨ha0, ha1⟩ := tokensToAdd_bounds hr hnow
  have hadd : wrapInt (wholeSeconds (timeSub now b.lastRefill) * b.refillRate)
      = wholeSeconds (timeSub now b.lastRefill) * b.refillRate :=
    wrapInt_of_range (by unfold minInt64; omega) (by omega)
  have hsum : wrapInt (b.tokens + wholeSeconds (timeSub now b.lastRefill) * b.refillRate)
      = b.tokens + wholeSeconds (timeSub now b.lastRefill) * b.refillRate :=
    wrapInt_of_range (by unfold minInt64; omega) (by omega)
  have hrefill : 0 ≤ (refill b now).tokens ∧ (refill b now).tokens ≤ b.maxTokens := by
    simp only [refill, hadd, hsum]
    split_ifs with hc <;> constructor <;> omega
  by_cases hpos : 0 < (refill b now).tokens
  · rw [takeToken_of_pos hpos]
    refine ⟨?_, ?_, rfl, rfl, rfl⟩ <;> simp only <;> omega
  · rw [takeToken_of_not_pos hpos]
    exact ⟨hrefill.1, hrefill.2, rfl, rfl, rfl⟩

/-- C1: the bucket of the example (maxTokens 5, tokens 5, refillRate 2), asked 15 times
while the clock still reads the instant of its construction, allows exactly the first 5
calls and rejects the other 10. -/
theorem burst_of_fifteen_allows_first_five (start : Int) :
    (takeTokens (bucket start) (List.replicate 15 start)).1
      = List.replicate 5 true ++ List.replicate 10 false := by
  simp [takeTokens, takeToken, refill, bucket, timeSub_self, wholeSeconds_zero, wrapInt,
    List.replicate]

/-- C2, as the claim states it, fails: with refillRate = 2^62 and two seconds elapsed the
product `2 * 2^62` wraps to `-2^63`, and the call leaves a negative token count although
the bucket started within `[0, maxTokens]`, the rate is non-negative and the clock moved
forward. -/
theorem tokens_negative_after_overflow :
    0 ≤ fastBucket.tokens ∧ fastBucket.tokens ≤ fastBucket.maxTokens ∧
      0 ≤ fastBucket.refillRate ∧ fastBucket.lastRefill ≤ 2000000000 ∧
      (takeTokens fastBucket [2000000000]).2.tokens = -9223372036854775808 := by
  decide

/-- C2, amended: from a bucket with 0 <= tokens <= maxTokens and refillRate >= 0 whose
refill cannot overflow (maxTokens + 9223372036 * refillRate fits a 64-bit int, 9223372036
being the longest elapsed time in whole seconds), under non-decreasing clock readings,
the token count is within `[0, maxTokens]` after every call. -/
theorem tokens_within_bounds_after_every_call (b : TokenBucket) (clock : List Int)
    (h0 : 0 ≤ b.tokens) (h1 : b.tokens ≤ b.maxTokens) (hr : 0 ≤ b.refillRate)
    (hfit : b.maxTokens + 9223372036 * b.refillRate ≤ maxInt64)
    (hclock : List.Chain (fun t u => t ≤ u) b.lastRefill clock) (n : Nat) :
    0 ≤ (takeTokens b (clock.take n)).2.tokens ∧
      (takeTokens b (clock.take n)).2.tokens ≤ b.maxTokens := by
  induction clock generalizing b n with
  | nil => simpa [takeTokens] using And.intro h0 h1
  | cons now rest ih =>
    cases n with
    | zero => simpa [takeTokens] using And.intro h0 h1
    | succ n =>
      rw [List.chain_cons] at hclock
      obtain ⟨k0, k1, km, kr, kl⟩ := takeToken_keeps_range h0 h1 hr hfit hclock.1
      have step := ih (takeToken b now).2 k0 (km ▸ k1) (kr ▸ hr)
        (by rw [km, kr]; exact hfit) (by rw [kl]; exact hclock.2) n
      rw [km] at step
      simpa [takeTokens] using step

/-- Instance of the bound on the example bucket, for clock readings 0 s, 1 s, 1 s, 3 s. -/
theorem tokens_within_bounds_after_every_call_witness :
    0 ≤ ((takeTokens (bucket 0) ([0, 1000000000, 1000000000, 3000000000].take 3)).2.tokens) ∧
      (takeTokens (bucket 0) ([0, 1000000000, 1000000000, 3000000000].take 3)).2.tokens
        ≤ (bucket 0).maxTokens :=
  tokens_within_bounds_after_every_call (bucket 0) [0, 1000000000, 1000000000, 3000000000]
    (by decide) (by decide) (by decide) (by decide) (by simp [bucket]) 3

/-- C3: `takeToken` returns true exactly when the refilled token count is at least 1; a
call that returns true leaves the refilled count minus one, a call that returns false
leaves the refilled count itself, and a refilled count of 0 is always rejected. -/
theorem takeToken_true_iff_refilled_token (b : TokenBucket) (now : Int) :
    ((takeToken b now).1 = true ↔ 1 ≤ (refill b now).tokens) ∧
      ((takeToken b now).1 = true →
        (takeToken b now).2.tokens = (refill b now).tokens - 1) ∧
      ((takeToken b now).1 = false →
        (takeToken b now).2.tokens = (refill b now).tokens) ∧
      ((refill b now).tokens = 0 → (takeToken b now).1 = false) := by
  by_cases hpos : 0 < (refill b now).tokens
  · rw [takeToken_of_pos hpos]
    refine ⟨⟨fun _ => hpos, fun _ => rfl⟩, fun _ => rfl, fun h => ?_, fun h => ?_⟩
    · cases h
    · omega
  · rw [takeToken_of_not_pos hpos]
    refine ⟨⟨fun h => ?_, fun h => ?_⟩, fun h => ?_, fun _ => rfl, fun _ => rfl⟩
    · cases h
    · exact absurd h hpos
    · cases h

/-- C4, the code at the failing input: half a second after the last refill, at 2 tokens
per second, `floor(elapsed * refillRate)` is 1 token, but `takeToken` truncates the
elapsed time to 0 whole seconds first, adds nothing and rejects the call. -/
theorem half_second_refill_adds_nothing :
    specTokensToAdd (timeSub 500000000 drainedBucket.lastRefill) drainedBucket.refillRate = 1 ∧
      (refill drainedBucket 500000000).tokens = 0 ∧
      (takeToken drainedBucket 500000000).1 = false := by
  decide

/-- The wall clock readings do not enter `takeToken`: the call on the bucket with both
readings is the call on the monotonic readings. -/
theorem takeTokenAt_monotonic (b : TimedBucket) (now : Reading) :
    (takeTokenAt b now).1 = (takeToken b.monotonic now.mono).1 ∧
      (takeTokenAt b now).2.tokens = (takeToken b.monotonic now.mono).2.tokens := by
  simp only [takeTokenAt, takeToken, refill, Reading.Sub, TimedBucket.monotonic]
  split_ifs <;> exact ⟨rfl, rfl⟩

/-- A call made less than one second after the last refill adds no token: it returns what a
call with zero elapsed time returns and leaves the same token count. -/
theorem takeToken_of_short_elapsed (b : TokenBucket) (now : Int)
    (hfwd : b.lastRefill ≤ now) (hshort : now - b.lastRefill < nanosPerSecond) :
    (takeToken b now).1 = (takeToken b b.lastRefill).1 ∧
      (takeToken b now).2.tokens = (takeToken b b.lastRefill).2.tokens := by
  have hsub : timeSub now b.lastRefill = now - b.lastRefill := by
    unfold nanosPerSecond at hshort
    unfold timeSub minInt64 maxInt64
    split_ifs <;> omega
  have hsec : wholeSeconds (timeSub now b.lastRefill) = 0 := by
    rw [hsub]
    exact wholeSeconds_of_short (by omega) hshort
  have hrefill : (refill b now).tokens = (refill b b.lastRefill).tokens := by
    simp only [refill, hsec, timeSub_self, wholeSeconds_zero]
  constructor
  · by_cases hpos : 0 < (refill b now).tokens
    · rw [takeToken_of_pos hpos, takeToken_of_pos (hrefill ▸ hpos)]
    · rw [takeToken_of_not_pos hpos, takeToken_of_not_pos (hrefill ▸ hpos)]
  · by_cases hpos : 0 < (refill b now).tokens
    · rw [takeToken_of_pos hpos, takeToken_of_pos (hrefill ▸ hpos)]
      simp only [hrefill]
    · rw [takeToken_of_not_pos hpos, takeToken_of_not_pos (hrefill ▸ hpos)]
      exact hrefill

/-- C5, as the claim states it, fails: the wall clock is set back from 10 s to 5 s while two
seconds pass on the monotonic clock.  The clock reading of the call is earlier than
lastRefill, yet `now.Sub(lastRefill)` is the two seconds of the monotonic clock: the refill
adds 4 tokens, the call on the drained bucket succeeds and leaves 3, where a call with zero
elapsed time is rejected and leaves 0. -/
theorem backward_wall_jump_still_refills :
    afterJump.wall < jumpedBucket.lastRefill.wall ∧
      jumpedBucket.lastRefill.mono ≤ afterJump.mono ∧
      afterJump.Sub jumpedBucket.lastRefill = 2000000000 ∧
      takeTokenAt jumpedBucket afterJump
        = (true, { tokens := 3, maxTokens := 5, refillRate := 2, lastRefill := afterJump }) ∧
      takeTokenAt jumpedBucket jumpedBucket.lastRefill
        = (false, { tokens := 0, maxTokens := 5, refillRate := 2,
                    lastRefill := jumpedBucket.lastRefill }) := by
  decide

/-- C5, amended: for a takeToken call whose wall clock reading is earlier than that of
lastRefill (a backward clock jump), the monotonic clock not going back, the elapsed time is
the difference of the monotonic readings and is not negative; the value returned and the
token count left are those of the call on the monotonic readings alone (the wall clock does
not enter), and they are those of a call with zero elapsed time whenever less than one
second has passed on the monotonic clock. -/
theorem backward_wall_jump_uses_monotonic_elapsed (b : TimedBucket) (now : Reading)
    (_hjump : now.wall < b.lastRefill.wall) (hmono : b.lastRefill.mono ≤ now.mono) :
    0 ≤ now.Sub b.lastRefill ∧
      ((takeTokenAt b now).1 = (takeToken b.monotonic now.mono).1 ∧
        (takeTokenAt b now).2.tokens = (takeToken b.monotonic now.mono).2.tokens) ∧
      (now.mono - b.lastRefill.mono < nanosPerSecond →
        (takeTokenAt b now).1 = (takeTokenAt b b.lastRefill).1 ∧
          (takeTokenAt b now).2.tokens = (takeTokenAt b b.lastRefill).2.tokens) := by
  refine ⟨timeSub_nonneg hmono, takeTokenAt_monotonic b now, fun hshort => ?_⟩
  have hnow := takeTokenAt_monotonic b now
  have hzero := takeTokenAt_monotonic b b.lastRefill
  have hsame := takeToken_of_short_elapsed b.monotonic now.mono hmono hshort
  have hlast : b.monotonic.lastRefill = b.lastRefill.mono := rfl
  rw [hlast] at hsame
  exact ⟨by rw [hnow.1, hzero.1, hsame.1], by rw [hnow.2, hzero.2, hsame.2]⟩

/-- Instance for the drained bucket asked half a second after its last refill, the wall
clock having been set back in between. -/
theorem backward_wall_jump_uses_monotonic_elapsed_witness :
    0 ≤ soonAfterJump.Sub jumpedBucket.lastRefill ∧
      ((takeTokenAt jumpedBucket soonAfterJump).1
          = (takeToken jumpedBucket.monotonic soonAfterJump.mono).1 ∧
        (takeTokenAt jumpedBucket soonAfterJump).2.tokens
          = (takeToken jumpedBucket.monotonic soonAfterJump.mono).2.tokens) ∧
      (soonAfterJump.mono - jumpedBucket.lastRefill.mono < nanosPerSecond →
        (takeTokenAt jumpedBucket soonAfterJump).1
            = (takeTokenAt jumpedBucket jumpedBucket.lastRefill).1 ∧
          (takeTokenAt jumpedBucket soonAfterJump).2.tokens
            = (takeTokenAt jumpedBucket jumpedBucket.lastRefill).2.tokens) :=
  backward_wall_jump_uses_monotonic_elapsed jumpedBucket soonAfterJump (by decide) (by decide)

end RateLimiting

namespace Timeouts

/-! ## The circuit breaker of `timeouts.go` -/

theorem errTimedOut_ne_errOpen (n : Int) : errTimedOut n ≠ errOpen := by
  intro h
  have h2 := congrArg String.data h
  simp [errTimedOut, errOpen] at h2

theorem Call_rejected {cb : CircuitBreaker} {now : Int} (outcome : Outcome) (failedAt : Int)
    (hopen : cb.failures ≥ cb.maxFailures) (hin : timeSub now cb.lastFailure < cb.timeout) :
    Call cb now outcome failedAt
      = { result := "", err := some errOpen, started := false, cb := cb } := by
  simp only [Call, hopen, hin, if_true]

theorem attempt_err_ne_errOpen (cb : CircuitBreaker) (outcome : Outcome) (failedAt : Int) :
    (attempt cb outcome failedAt).err ≠ some errOpen := by
  cases outcome with
  | received result => simp [attempt]
  | timedOut =>
    simp only [attempt, ne_eq, Option.some.injEq]
    exact errTimedOut_ne_errOpen _

theorem Call_err_errOpen_iff (cb : CircuitBreaker) (now : Int) (outcome : Outcome)
    (failedAt : Int) :
    (Call cb now outcome failedAt).err = some errOpen ↔
      (cb.failures ≥ cb.maxFailures ∧ timeSub now cb.lastFailure < cb.timeout) := by
  constructor
  · intro h
    by_cases hopen : cb.failures ≥ cb.maxFailures
    · by_cases hin : timeSub now cb.lastFailure < cb.timeout
      · exact ⟨hopen, hin⟩
      · simp only [Call, hopen, hin, if_true, if_false] at h
        exact absurd h (attempt_err_ne_errOpen _ _ _)
    · simp only [Call, hopen, if_false] at h
      exact absurd h (attempt_err_ne_errOpen _ _ _)
  · rintro ⟨hopen, hin⟩
    rw [Call_rejected outcome failedAt hopen hin]

/-- A call on a closed breaker whose operation times out is admitted and counted. -/
theorem Call_timedOut_of_closed {cb : CircuitBreaker} (now failedAt : Int)
    (h0 : 0 ≤ cb.failures) (hlt : cb.failures < cb.maxFailures)
    (hint : cb.maxFailures ≤ maxInt64) :
    Call cb now Outcome.timedOut failedAt
      = { result := "", err := some (errTimedOut (cb.failures + 1)), started := true,
          cb := { cb with failures := cb.failures + 1, lastFailure := failedAt } } := by
  have hw : wrapInt (cb.failures + 1) = cb.failures + 1 :=
    wrapInt_of_range (by unfold minInt64; omega) (by omega)
  have hnot : ¬ cb.failures ≥ cb.maxFailures := by omega
  simp only [Call, hnot, if_false, attempt, hw]

theorem calls_append (cb : CircuitBreaker) (xs ys : List CallInput) :
    calls cb (xs ++ ys)
      = ((calls cb xs).1 ++ (calls (calls cb xs).2 ys).1, (calls (calls cb xs).2 ys).2) := by
  induction xs generalizing cb with
  | nil => simp [calls]
  | cons c rest ih => simp [calls, ih]

/-- A run of failing calls that starts below the threshold and does not pass it: every call
is admitted, and the counter goes up by the length of the run. -/
theorem calls_of_failing_run (failing : List CallInput) (cb : CircuitBreaker)
    (h0 : 0 ≤ cb.failures) (hroom : cb.failures + failing.length ≤ cb.maxFailures)
    (hint : cb.maxFailures ≤ maxInt64)
    (hfail : ∀ c ∈ failing, c.outcome = Outcome.timedOut) :
    (calls cb failing).2.failures = cb.failures + failing.length ∧
      (calls cb failing).2.maxFailures = cb.maxFailures ∧
      (calls cb failing).2.timeout = cb.timeout ∧
      (∀ r ∈ (calls cb failing).1, r.started = true ∧ r.err ≠ none) := by
  induction failing generalizing cb with
  | nil => simp [calls]
  | cons c rest ih =>
    have hc : c.outcome = Outcome.timedOut := hfail c (List.mem_cons_self _ _)
    have hlen : ((c :: rest).length : Int) = rest.length + 1 := by simp
    rw [hlen] at hroom
    have hstep := @Call_timedOut_of_closed cb c.now c.failedAt h0 (by omega) hint
    have hrest := ih { cb with failures := cb.failures + 1, lastFailure := c.failedAt }
      (by simp only; omega) (by simp only; omega) hint
      (fun x hx => hfail x (List.mem_cons_of_mem _ hx))
    simp only [calls, hc, hstep, hlen, List.mem_cons, forall_eq_or_imp]
    simp only at hrest
    refine ⟨by omega, hrest.2.1, hrest.2.2.1, ⟨trivial, by simp⟩, hrest.2.2.2⟩

/-- Calls made on an open breaker before its timeout has passed are all rejected and leave
the breaker as it is. -/
theorem calls_of_open (later : List CallInput) (cb : CircuitBreaker)
    (hopen : cb.failures ≥ cb.maxFailures)
    (hin : ∀ c ∈ later, timeSub c.now cb.lastFailure < cb.timeout) :
    (calls cb later).2 = cb ∧ (calls cb later).1.length = later.length ∧
      ∀ r ∈ (calls cb later).1,
        r = { result := "", err := some errOpen, started := false, cb := cb } := by
  induction later with
  | nil => simp [calls]
  | cons c rest ih =>
    have hstep := Call_rejected c.outcome c.failedAt hopen (hin c (List.mem_cons_self _ _))
    have hrest := ih (fun x hx => hin x (List.mem_cons_of_mem _ hx))
    simp only [calls, hstep, List.mem_cons, forall_eq_or_imp, List.length_cons]
    exact ⟨hrest.1, by rw [hrest.2.1], trivial, hrest.2.2⟩

/-- C6, as the claim states it, fails: on the breaker of the example (maxFailures 2, timeout
500 ms) three consecutive calls fail, the third one 600 ms after the second failure, when
the cooldown has passed and the count is reset; that third failure leaves the count at 1,
and the Call made 100 ms after it is admitted and succeeds instead of being rejected. -/
theorem consecutive_failures_across_reset_do_not_open :
    breaker.maxFailures = 2 ∧
      timeSub 2100000000 2000000000 < breaker.timeout ∧
      (calls breaker resetTrace).1.map (fun r => (r.err, r.started, r.cb.failures))
        = [(some "operation timed out, failures: 1", true, 1),
           (some "operation timed out, failures: 2", true, 2),
           (some "operation timed out, failures: 1", true, 1),
           (none, true, 0)] := by
  decide

/-- C6, amended: on a breaker whose failure count is 0 (a new breaker, or one whose last
call succeeded), once the next maxFailures calls have failed one after the other (each is
admitted and times out, none of them after a reset), every Call made less than `timeout`
after the last failure returns the error "circuit breaker is open" without starting the
operation, and leaves the breaker as it is. -/
theorem open_after_maxFailures_consecutive_failures (cb : CircuitBreaker)
    (failing later : List CallInput)
    (hzero : cb.failures = 0) (hlen : (failing.length : Int) = cb.maxFailures)
    (hint : cb.maxFailures ≤ maxInt64)
    (hfail : ∀ c ∈ failing, c.outcome = Outcome.timedOut)
    (hwithin : ∀ c ∈ later,
      timeSub c.now (calls cb failing).2.lastFailure < (calls cb failing).2.timeout) :
    (∀ r ∈ (calls cb failing).1, r.started = true ∧ r.err ≠ none) ∧
      (∀ init c, failing = init ++ [c] → (calls cb failing).2.lastFailure = c.failedAt) ∧
      (calls (calls cb failing).2 later).1.length = later.length ∧
      (∀ r ∈ (calls (calls cb failing).2 later).1,
        r.result = "" ∧ r.err = some "circuit breaker is open" ∧ r.started = false ∧
          r.cb = (calls cb failing).2) ∧
      (calls (calls cb failing).2 later).2 = (calls cb failing).2 := by
  have hrun := calls_of_failing_run failing cb (by omega) (by omega) hint hfail
  have hopen : (calls cb failing).2.failures ≥ (calls cb failing).2.maxFailures := by
    rw [hrun.1, hrun.2.1]; omega
  have hlater := calls_of_open later (calls cb failing).2 hopen hwithin
  refine ⟨hrun.2.2.2, ?_, hlater.2.1, ?_, hlater.1⟩
  · intro init c hsplit
    have hinit := calls_of_failing_run init cb (by omega)
      (by rw [← hlen, hsplit]; simp; omega) hint
      (fun x hx => hfail x (by rw [hsplit]; exact List.mem_append_left _ hx))
    have hc : c.outcome = Outcome.timedOut := hfail c (by rw [hsplit]; simp)
    have hlt : (calls cb init).2.failures < (calls cb init).2.maxFailures := by
      rw [hinit.1, hinit.2.1, ← hlen, hsplit]; simp; omega
    have hstep := @Call_timedOut_of_closed (calls cb init).2 c.now c.failedAt
      (by rw [hinit.1]; omega) hlt (by rw [hinit.2.1]; exact hint)
    rw [hsplit, calls_append]
    simp only [calls, hc, hstep]
  · intro r hr
    rw [hlater.2.2 r hr]
    exact ⟨rfl, rfl, rfl, rfl⟩

/-- Instance on the breaker of the example: two failures, then calls at 1.4 s and 1.7 s. -/
theorem open_after_maxFailures_consecutive_failures_witness :
    (∀ r ∈ (calls breaker twoFailures).1, r.started = true ∧ r.err ≠ none) ∧
      (∀ init c, twoFailures = init ++ [c] →
        (calls breaker twoFailures).2.lastFailure = c.failedAt) ∧
      (calls (calls breaker twoFailures).2 earlyCalls).1.length = earlyCalls.length ∧
      (∀ r ∈ (calls (calls breaker twoFailures).2 earlyCalls).1,
        r.result = "" ∧ r.err = some "circuit breaker is open" ∧ r.started = false ∧
          r.cb = (calls breaker twoFailures).2) ∧
      (calls (calls breaker twoFailures).2 earlyCalls).2 = (calls breaker twoFailures).2 :=
  open_after_maxFailures_consecutive_failures breaker twoFailures earlyCalls
    (by decide) (by decide) (by decide) (by decide) (by decide)

/-- C7, as the claim states it, fails for maxFailures = 2 (the breaker of the example,
timeout 500 ms): two failures open the breaker (the call at 1.4 s is rejected); the call at
1.9 s, 600 ms after the last failure, is the trial and fails at 2.0 s; the call at 2.1 s,
100 ms after that failure, is admitted and succeeds instead of being rejected. -/
theorem failed_trial_does_not_reopen :
    1 ≤ breaker.maxFailures ∧
      breaker.timeout ≤ timeSub 1900000000 1300000000 ∧
      timeSub 2100000000 2000000000 < breaker.timeout ∧
      (calls breaker trialTrace).1.map (fun r => (r.err, r.started, r.cb.failures))
        = [(some "operation timed out, failures: 1", true, 1),
           (some "operation timed out, failures: 2", true, 2),
           (some "circuit breaker is open", false, 2),
           (some "operation timed out, failures: 1", true, 1),
           (none, true, 0)] := by
  decide

/-- C7, amended: with maxFailures >= 1, once the breaker is open and the cooldown has
elapsed, the next Call is admitted with the failure count reset to 0; if it fails, the count
is 1 and lastFailure is the time of that failure, and the following Call made within the
cooldown of that failure is rejected with "circuit breaker is open" exactly when
maxFailures = 1. -/
theorem failed_trial_reopens_iff_single_failure (cb : CircuitBreaker) (now failedAt : Int)
    (next : CallInput)
    (hmax : 1 ≤ cb.maxFailures) (hopen : cb.failures ≥ cb.maxFailures)
    (hcool : cb.timeout ≤ timeSub now cb.lastFailure)
    (hnext : timeSub next.now failedAt < cb.timeout) :
    (Call cb now Outcome.timedOut failedAt).started = true ∧
      (Call cb now Outcome.timedOut failedAt).cb.failures = 1 ∧
      (Call cb now Outcome.timedOut failedAt).cb.lastFailure = failedAt ∧
      ((Call (Call cb now Outcome.timedOut failedAt).cb next.now next.outcome
          next.failedAt).err = some "circuit breaker is open" ↔ cb.maxFailures = 1) := by
  have hnot : ¬ timeSub now cb.lastFailure < cb.timeout := by omega
  have hw : wrapInt (0 + 1) = 1 := by decide
  have htrial : Call cb now Outcome.timedOut failedAt
      = { result := "", err := some (errTimedOut 1), started := true,
          cb := { cb with failures := 1, lastFailure := failedAt } } := by
    simp only [Call, hopen, hnot, if_true, if_false, attempt, hw]
  rw [htrial]
  refine ⟨rfl, rfl, rfl, ?_⟩
  have hiff := Call_err_errOpen_iff { cb with failures := 1, lastFailure := failedAt }
    next.now next.outcome next.failedAt
  simp only [errOpen] at hiff
  rw [hiff]
  constructor
  · rintro ⟨h, _⟩
    omega
  · intro h
    exact ⟨by omega, hnext⟩

/-- Instance on a breaker with maxFailures = 1 whose trial at 1.9 s fails at 2.0 s. -/
theorem failed_trial_reopens_iff_single_failure_witness :
    (Call singleFailureBreaker 1900000000 Outcome.timedOut 2000000000).started = true ∧
      (Call singleFailureBreaker 1900000000 Outcome.timedOut 2000000000).cb.failures = 1 ∧
      (Call singleFailureBreaker 1900000000 Outcome.timedOut 2000000000).cb.lastFailure
        = 2000000000 ∧
      ((Call (Call singleFailureBreaker 1900000000 Outcome.timedOut 2000000000).cb
          2100000000 (Outcome.received "success") 2200000000).err
            = some "circuit breaker is open" ↔ singleFailureBreaker.maxFailures = 1) :=
  failed_trial_reopens_iff_single_failure singleFailureBreaker 1900000000 2000000000
    { now := 2100000000, outcome := Outcome.received "success", failedAt := 2200000000 }
    (by decide) (by decide) (by decide) (by decide)

/-- C8: a Call that returns the error "circuit breaker is open" did not start the
operation and leaves the breaker, in particular `failures` and `lastFailure`, unchanged. -/
theorem rejected_call_is_not_counted (cb : CircuitBreaker) (now : Int) (outcome : Outcome)
    (failedAt : Int)
    (hrej : (Call cb now outcome failedAt).err = some "circuit breaker is open") :
    (Call cb now outcome failedAt).cb.failures = cb.failures ∧
      (Call cb now outcome failedAt).cb.lastFailure = cb.lastFailure ∧
      (Call cb now outcome failedAt).cb = cb ∧
      (Call cb now outcome failedAt).started = false := by
  have hiff := Call_err_errOpen_iff cb now outcome failedAt
  simp only [errOpen] at hiff
  obtain ⟨hopen, hin⟩ := hiff.mp hrej
  rw [Call_rejected outcome failedAt hopen hin]
  exact ⟨rfl, rfl, rfl, rfl⟩

/-- Instance on the open breaker of the example, called 100 ms after its last failure. -/
theorem rejected_call_is_not_counted_witness :
    (Call openBreaker 1400000000 Outcome.timedOut 1500000000).cb.failures
        = openBreaker.failures ∧
      (Call openBreaker 1400000000 Outcome.timedOut 1500000000).cb.lastFailure
        = openBreaker.lastFailure ∧
      (Call openBreaker 1400000000 Outcome.timedOut 1500000000).cb = openBreaker ∧
      (Call openBreaker 1400000000 Outcome.timedOut 1500000000).started = false :=
  rejected_call_is_not_counted openBreaker 1400000000 Outcome.timedOut 1500000000
    (by decide)

end Timeouts

namespace WorkerPools

/-! ## The circuit-breaker worker of `worker-pools.go` -/

theorem circuitBreakerWorker_append (id : Int) (cb : CircuitBreaker) (xs ys : List Int) :
    circuitBreakerWorker id cb (xs ++ ys)
      = { sent := (circuitBreakerWorker id cb xs).sent ++
            (circuitBreakerWorker id (circuitBreakerWorker id cb xs).cb ys).sent,
          printed := (circuitBreakerWorker id cb xs).printed ++
            (circuitBreakerWorker id (circuitBreakerWorker id cb xs).cb ys).printed,
          cb := (circuitBreakerWorker id (circuitBreakerWorker id cb xs).cb ys).cb } := by
  induction xs generalizing cb with
  | nil => simp [circuitBreakerWorker]
  | cons j rest ih => simp [circuitBreakerWorker, ih]

theorem circuitBreakerWorker_single (id : Int) (cb : CircuitBreaker) (j : Int) :
    circuitBreakerWorker id cb [j] = processJob id cb j := by
  simp [circuitBreakerWorker]

theorem processJob_of_open {cb : CircuitBreaker} (id j : Int) (h : cb.isOpen = true) :
    processJob id cb j = { sent := [rejectedMsg id j], printed := [], cb := cb } := by
  simp only [processJob, h, if_true]

theorem processJob_sent (id : Int) (cb : CircuitBreaker) (j : Int) :
    (processJob id cb j).sent
      = [if cb.isOpen = true then rejectedMsg id j
         else if jobFails j = true then failedMsg id j else succeededMsg id j] := by
  simp only [processJob]
  split_ifs <;> rfl

theorem circuitBreakerWorker_sent_length (id : Int) (cb : CircuitBreaker) (jobs : List Int) :
    (circuitBreakerWorker id cb jobs).sent.length = jobs.length := by
  induction jobs generalizing cb with
  | nil => simp [circuitBreakerWorker]
  | cons j rest ih => simp [circuitBreakerWorker, processJob_sent, ih]

theorem circuitBreakerWorker_of_open (id : Int) {cb : CircuitBreaker} (jobs : List Int)
    (h : cb.isOpen = true) : (circuitBreakerWorker id cb jobs).cb = cb := by
  induction jobs with
  | nil => simp [circuitBreakerWorker]
  | cons j rest ih => simp only [circuitBreakerWorker, processJob_of_open id j h, ih]

/-- A job that fails on a closed breaker: the count goes up by one (no overflow below the
threshold) and the breaker opens when the count has reached the threshold. -/
theorem processJob_failure_of_closed {cb : CircuitBreaker} (id : Int) {j : Int}
    (hclosed : cb.isOpen = false) (hj : jobFails j = true) (h0 : 0 ≤ cb.failures)
    (hlow : cb.failures = 0 ∨ cb.failures < cb.maxFailures)
    (hint : cb.maxFailures ≤ maxInt64) :
    (processJob id cb j).cb
      = if cb.failures + 1 ≥ cb.maxFailures then
          { cb with failures := cb.failures + 1, isOpen := true }
        else { cb with failures := cb.failures + 1 } := by
  have hmax : maxInt64 = 9223372036854775807 := rfl
  have hw : wrapInt (cb.failures + 1) = cb.failures + 1 :=
    wrapInt_of_range (by unfold minInt64; omega) (by omega)
  simp only [processJob, hclosed, hj, hw, Bool.false_eq_true, if_false, if_true]
  split_ifs with hc <;> rfl

theorem processJob_success_of_closed {cb : CircuitBreaker} (id : Int) {j : Int}
    (hclosed : cb.isOpen = false) (hj : jobFails j = false) :
    (processJob id cb j).cb = cb := by
  simp [processJob, hclosed, hj]

/-- While the breaker stays closed its counter is the number of failed jobs so far, and it
is 0 or below the threshold. -/
theorem failures_while_closed (id : Int) (jobs : List Int) (cb : CircuitBreaker)
    (hstart : cb.isOpen = false) (h0 : 0 ≤ cb.failures)
    (hlow : cb.failures = 0 ∨ cb.failures < cb.maxFailures)
    (hint : cb.maxFailures ≤ maxInt64)
    (hclosed : (circuitBreakerWorker id cb jobs).cb.isOpen = false) :
    (circuitBreakerWorker id cb jobs).cb.failures = cb.failures + failingJobs jobs ∧
      (circuitBreakerWorker id cb jobs).cb.maxFailures = cb.maxFailures ∧
      ((circuitBreakerWorker id cb jobs).cb.failures = 0 ∨
        (circuitBreakerWorker id cb jobs).cb.failures < cb.maxFailures) := by
  induction jobs generalizing cb with
  | nil => simpa [circuitBreakerWorker, failingJobs] using hlow
  | cons j rest ih =>
    simp only [circuitBreakerWorker] at hclosed ⊢
    by_cases hj : jobFails j = true
    · have hstep := processJob_failure_of_closed id hstart hj h0 hlow hint
      rw [hstep] at hclosed ⊢
      by_cases hc : cb.failures + 1 ≥ cb.maxFailures
      · simp only [hc, if_true] at hclosed
        rw [circuitBreakerWorker_of_open id rest rfl] at hclosed
        cases hclosed
      · simp only [hc, if_false] at hclosed ⊢
        have hrest := ih { cb with failures := cb.failures + 1 } hstart
          (by simp only; omega) (by simp only; omega) hint hclosed
        simp only at hrest
        refine ⟨?_, hrest.2.1, hrest.2.2⟩
        rw [hrest.1]
        simp [failingJobs, List.countP_cons, hj]
        omega
    · have hj2 : jobFails j = false := by simpa using hj
      have hstep := processJob_success_of_closed id hstart hj2
      rw [hstep] at hclosed ⊢
      have hrest := ih cb hstart h0 hlow hint hclosed
      refine ⟨?_, hrest.2.1, hrest.2.2⟩
      rw [hrest.1]
      simp [failingJobs, List.countP_cons, hj2]

/-- C9, as the claim states it, fails: with maxFailures = 3 (the breaker of the example)
and the jobs 4, 1, 5, 2, 6 the breaker is closed after job 2 and open after job 6, although
the three failures (jobs 4, 5 and 6) are separated by the successful jobs 1 and 2. -/
theorem breaker_opens_on_separated_failures :
    poolBreaker.maxFailures = 3 ∧
      (circuitBreakerWorker 1 poolBreaker [4, 1, 5, 2]).cb.isOpen = false ∧
      (circuitBreakerWorker 1 poolBreaker [4, 1, 5, 2, 6]).cb.isOpen = true ∧
      (circuitBreakerWorker 1 poolBreaker [4, 1, 5, 2, 6]).sent
        = ["Worker 1: Job 4 failed", "Worker 1: Job 1 succeeded", "Worker 1: Job 5 failed",
           "Worker 1: Job 2 succeeded", "Worker 1: Job 6 failed"] := by
  decide

/-- C9, amended: for one worker started on a closed breaker with no failure counted, the
breaker goes from closed to open only at a job that fails and brings the total number of
failed jobs since the start (successful jobs in between do not reset it) to maxFailures:
the counter then equals that total, is at least maxFailures, and is exactly maxFailures
when maxFailures >= 1. -/
theorem breaker_opens_at_total_failures (id maxFailures : Int) (pre : List Int) (j : Int)
    (hint : maxFailures ≤ maxInt64)
    (hclosed : (circuitBreakerWorker id (newBreaker maxFailures) pre).cb.isOpen = false)
    (hopen : (circuitBreakerWorker id (newBreaker maxFailures) (pre ++ [j])).cb.isOpen
      = true) :
    jobFails j = true ∧
      (circuitBreakerWorker id (newBreaker maxFailures) (pre ++ [j])).cb.failures
        = failingJobs (pre ++ [j]) ∧
      maxFailures ≤ failingJobs (pre ++ [j]) ∧
      (1 ≤ maxFailures → (failingJobs (pre ++ [j]) : Int) = maxFailures) := by
  have hf : (newBreaker maxFailures).failures = 0 := rfl
  have hm : (newBreaker maxFailures).maxFailures = maxFailures := rfl
  have hpre := failures_while_closed id pre (newBreaker maxFailures) rfl (by rw [hf])
    (Or.inl rfl) hint hclosed
  rw [hf, hm, Int.zero_add] at hpre
  obtain ⟨hcount, hkeep, hlow⟩ := hpre
  rw [circuitBreakerWorker_append, circuitBreakerWorker_single] at hopen ⊢
  simp only at hopen ⊢
  by_cases hj : jobFails j = true
  · have hstep := processJob_failure_of_closed id hclosed hj
      (by rw [hcount]; omega) (by rw [hkeep]; exact hlow) (by rw [hkeep]; exact hint)
    have hplus : (failingJobs (pre ++ [j]) : Int) = failingJobs pre + 1 := by
      simp [failingJobs, List.countP_append, List.countP_cons, hj]
    rw [hstep, hkeep, hcount] at hopen ⊢
    rw [hcount] at hlow
    by_cases hc : (failingJobs pre : Int) + 1 ≥ maxFailures
    · rw [if_pos hc, hplus]
      exact ⟨hj, rfl, by omega, fun h1 => by omega⟩
    · rw [if_neg hc] at hopen
      rw [hclosed] at hopen
      cases hopen
  · have hj2 : jobFails j = false := by simpa using hj
    rw [processJob_success_of_closed id hclosed hj2, hclosed] at hopen
    cases hopen

/-- Instance with maxFailures = 3 and the jobs 4, 1, 5, 2, 6. -/
theorem breaker_opens_at_total_failures_witness :
    jobFails 6 = true ∧
      (circuitBreakerWorker 1 (newBreaker 3) ([4, 1, 5, 2] ++ [6])).cb.failures
        = failingJobs ([4, 1, 5, 2] ++ [6]) ∧
      (3 : Int) ≤ failingJobs ([4, 1, 5, 2] ++ [6]) ∧
      (1 ≤ (3 : Int) → (failingJobs ([4, 1, 5, 2] ++ [6]) : Int) = 3) :=
  breaker_opens_at_total_failures 1 3 [4, 1, 5, 2] 6 (by decide) (by decide) (by decide)

/-- C10: one worker sends exactly one result per job it consumes, in the order consumed
(the result at position i is about the i-th job: rejected, failed or succeeded); a job
consumed while the breaker is open gets the result "Worker id: Circuit breaker OPEN, job N
rejected", prints nothing (it is not executed) and leaves the breaker, so the failure
count, unchanged. -/
theorem one_result_per_job_in_order (id : Int) (cb : CircuitBreaker) (jobs : List Int) :
    (circuitBreakerWorker id cb jobs).sent.length = jobs.length ∧
      ∀ pre j post, jobs = pre ++ j :: post →
        (circuitBreakerWorker id cb jobs).sent[pre.length]?
            = some (if (circuitBreakerWorker id cb pre).cb.isOpen = true then
                      "Worker " ++ toString id ++ ": Circuit breaker OPEN, job " ++
                        toString j ++ " rejected"
                    else if jobFails j = true then failedMsg id j
                    else succeededMsg id j) ∧
          ((circuitBreakerWorker id cb pre).cb.isOpen = true →
            (circuitBreakerWorker id cb (pre ++ [j])).printed
                = (circuitBreakerWorker id cb pre).printed ∧
              (circuitBreakerWorker id cb (pre ++ [j])).cb
                = (circuitBreakerWorker id cb pre).cb ∧
              (circuitBreakerWorker id cb (pre ++ [j])).cb.failures
                = (circuitBreakerWorker id cb pre).cb.failures) := by
  refine ⟨circuitBreakerWorker_sent_length id cb jobs, ?_⟩
  intro pre j post hsplit
  constructor
  · have hlen := circuitBreakerWorker_sent_length id cb pre
    rw [hsplit, circuitBreakerWorker_append]
    simp only [circuitBreakerWorker, processJob_sent]
    rw [List.getElem?_append_right (by omega)]
    simp [hlen, rejectedMsg]
  · intro hopen
    rw [circuitBreakerWorker_append, circuitBreakerWorker_single,
      processJob_of_open id j hopen]
    simp

end WorkerPools

namespace Timeouts

/-! ## The retry loop of `timeouts.go` -/

theorem errFailedAfter_ne_errNotReached (n : Int) : errFailedAfter n ≠ errNotReached := by
  intro h
  have h2 := congrArg String.data h
  simp [errFailedAfter, errNotReached] at h2

/-- The loop entered at an attempt `a` within `1 .. maxRetries`, with room for the attempts
that remain: it returns, after at most `maxRetries - a + 1` further attempts; the first
attempt that does not time out gives the result; the error of a failed operation is
returned exactly when every remaining attempt times out. -/
theorem retryLoop_returns (maxRetries : Int) (timesOut : Int → Bool)
    (hint : maxRetries ≤ maxInt64) (n : Nat) :
    ∀ (a : Int) (attempts fuel : Nat), 1 ≤ a → maxRetries - a + 1 = (n : Int) + 1 →
      n + 1 ≤ fuel →
      ∃ r, retryLoop maxRetries timesOut fuel a attempts = Exec.returned r ∧
        attempts + 1 ≤ r.attempts ∧ r.attempts ≤ attempts + (n + 1) ∧
        (∀ k, a ≤ k → k ≤ maxRetries → timesOut k = false →
          (∀ i, a ≤ i → i < k → timesOut i = true) →
          r.result = successMsg k ∧ r.err = none ∧
            (r.attempts : Int) = attempts + (k - a + 1)) ∧
        (r.err = some (errFailedAfter maxRetries) ↔
          ∀ i, a ≤ i → i ≤ maxRetries → timesOut i = true) := by
  induction n with
  | zero =>
    intro a attempts fuel ha hn hfuel
    have hlast : a = maxRetries := by omega
    obtain ⟨f, rfl⟩ : ∃ f, fuel = f + 1 := ⟨fuel - 1, by omega⟩
    have hle : a ≤ maxRetries := by omega
    by_cases ht : timesOut a = true
    · have hrun : retryLoop maxRetries timesOut (f + 1) a attempts = Exec.returned
          { result := "", err := some (errFailedAfter maxRetries), attempts := attempts + 1 } := by
        simp only [retryLoop, hle, ht, if_true, if_pos hlast]
      refine ⟨_, hrun, by simp, by simp, ?_, ?_⟩
      · intro k hk1 hk2 hk _
        have : k = a := by omega
        rw [this, ht] at hk
        cases hk
      · simp only [true_iff]
        intro i hi1 hi2
        have : i = a := by omega
        rw [this, ht]
    · have hf : timesOut a = false := by simpa using ht
      have hrun : retryLoop maxRetries timesOut (f + 1) a attempts = Exec.returned
          { result := successMsg a, err := none, attempts := attempts + 1 } := by
        simp only [retryLoop, hle, hf, if_true, Bool.false_eq_true, if_false]
      refine ⟨_, hrun, by simp, by simp, ?_, ?_⟩
      · intro k hk1 hk2 _ _
        have : k = a := by omega
        rw [this]
        refine ⟨rfl, rfl, ?_⟩
        simp
      · simp only [false_iff, not_forall]
        constructor
        · intro h; cases h
        · intro h
          have := h a (le_refl a) hle
          rw [hf] at this
          cases this
  | succ n ih =>
    intro a attempts fuel ha hn hfuel
    obtain ⟨f, rfl⟩ : ∃ f, fuel = f + 1 := ⟨fuel - 1, by omega⟩
    have hle : a ≤ maxRetries := by omega
    have hne : ¬ a = maxRetries := by omega
    by_cases ht : timesOut a = true
    · have hmax : maxInt64 = 9223372036854775807 := rfl
      have hw : wrapInt (a + 1) = a + 1 :=
        wrapInt_of_range (by unfold minInt64; omega) (by omega)
      obtain ⟨r, hr, h1, h2, hfirst, hall⟩ :=
        ih (a + 1) (attempts + 1) f (by omega) (by push_cast at hn ⊢; omega) (by omega)
      have hrun : retryLoop maxRetries timesOut (f + 1) a attempts = Exec.returned r := by
        simp only [retryLoop, hle, ht, hne, if_true, if_false, hw, hr]
      refine ⟨r, hrun, by omega, by omega, ?_, ?_⟩
      · intro k hk1 hk2 hk hbefore
        have hka : k ≠ a := by
          intro h
          rw [h, ht] at hk
          cases hk
        obtain ⟨e1, e2, e3⟩ := hfirst k (by omega) hk2 hk
          (fun i hi1 hi2 => hbefore i (by omega) hi2)
        refine ⟨e1, e2, ?_⟩
        rw [e3]
        push_cast
        omega
      · rw [hall]
        constructor
        · intro h i hi1 hi2
          by_cases hia : i = a
          · rw [hia, ht]
          · exact h i (by omega) hi2
        · intro h i hi1 hi2
          exact h i (by omega) hi2
    · have hf : timesOut a = false := by simpa using ht
      have hrun : retryLoop maxRetries timesOut (f + 1) a attempts = Exec.returned
          { result := successMsg a, err := none, attempts := attempts + 1 } := by
        simp only [retryLoop, hle, hf, if_true, Bool.false_eq_true, if_false]
      refine ⟨_, hrun, by simp, by simp, ?_, ?_⟩
      · intro k hk1 hk2 _ hbefore
        have : k = a := by
          by_contra hka
          have := hbefore a (le_refl a) (by omega)
          rw [hf] at this
          cases this
        rw [this]
        refine ⟨rfl, rfl, ?_⟩
        simp
      · simp only [false_iff, not_forall]
        constructor
        · intro h; cases h
        · intro h
          have := h a (le_refl a) hle
          rw [hf] at this
          cases this

/-- C11: for maxRetries >= 1 and every pattern of timeouts, `operationWithRetry` returns
(given room for maxRetries iterations) after starting between 1 and maxRetries attempts;
when attempt k is the first that does not time out it returns that attempt's message
"success on attempt k" with a nil error after exactly k attempts; and it returns the error
"operation failed after maxRetries attempts" exactly when all maxRetries attempts time
out. -/
theorem operationWithRetry_bounded_attempts (maxRetries : Int) (timesOut : Int → Bool)
    (fuel : Nat) (hmin : 1 ≤ maxRetries) (hint : maxRetries ≤ maxInt64)
    (hfuel : maxRetries ≤ (fuel : Int)) :
    ∃ r, operationWithRetry fuel maxRetries timesOut = Exec.returned r ∧
      1 ≤ r.attempts ∧ (r.attempts : Int) ≤ maxRetries ∧
      (∀ k, 1 ≤ k → k ≤ maxRetries → timesOut k = false →
        (∀ i, 1 ≤ i → i < k → timesOut i = true) →
        r.result = "success on attempt " ++ toString k ∧ r.err = none ∧
          (r.attempts : Int) = k) ∧
      (r.err = some ("operation failed after " ++ toString maxRetries ++ " attempts") ↔
        ∀ i, 1 ≤ i → i ≤ maxRetries → timesOut i = true) := by
  obtain ⟨n, hn⟩ : ∃ n : Nat, maxRetries = (n : Int) + 1 :=
    ⟨(maxRetries - 1).toNat, by omega⟩
  obtain ⟨r, hr, h1, h2, hfirst, hall⟩ :=
    retryLoop_returns maxRetries timesOut hint n 1 0 fuel (le_refl 1) (by omega) (by omega)
  refine ⟨r, hr, by omega, by omega, ?_, hall⟩
  intro k hk1 hk2 hk hbefore
  obtain ⟨e1, e2, e3⟩ := hfirst k hk1 hk2 hk hbefore
  refine ⟨e1, e2, ?_⟩
  rw [e3]
  push_cast
  omega

/-- Instance for the call of the example, `operationWithRetry(3, 100 ms)`. -/
theorem operationWithRetry_bounded_attempts_witness :
    ∃ r, operationWithRetry 3 3 lateFromSecond = Exec.returned r ∧
      1 ≤ r.attempts ∧ (r.attempts : Int) ≤ 3 ∧
      (∀ k, 1 ≤ k → k ≤ 3 → lateFromSecond k = false →
        (∀ i, 1 ≤ i → i < k → lateFromSecond i = true) →
        r.result = "success on attempt " ++ toString k ∧ r.err = none ∧
          (r.attempts : Int) = k) ∧
      (r.err = some ("operation failed after " ++ toString (3 : Int) ++ " attempts") ↔
        ∀ i, 1 ≤ i → i ≤ 3 → lateFromSecond i = true) :=
  operationWithRetry_bounded_attempts 3 lateFromSecond 3 (by decide) (by decide) (by decide)

end Timeouts

namespace Recover

/-! ## `safeOperation` of `recover.go` -/

/-- The deferred `recover` never lets a panic of the body through. -/
theorem withRecover_never_panics (body : Exec (Option String)) (fault : String) :
    withRecover body ≠ Exec.panicked fault := by
  cases body <;> simp [withRecover]

/-- C13: the body of `safeOperation` panics (the write `slice[0] = 1` to a nil slice is out
of range), the panic is not propagated, and `safeOperation` returns normally with a non-nil
error whose message is "panic recovered: " followed by the fault value, here
"runtime error: index out of range [0] with length 0". -/
theorem safeOperation_returns_recovered_error :
    safeOperationBody = Exec.panicked (indexFault 0 0) ∧
      (∀ fault, safeOperation ≠ Exec.panicked fault) ∧
      safeOperation = Exec.returned (some ("panic recovered: " ++ indexFault 0 0)) ∧
      safeOperation = Exec.returned
        (some "panic recovered: runtime error: index out of range [0] with length 0") := by
  refine ⟨by decide, fun fault => withRecover_never_panics _ fault, by decide, by decide⟩

end Recover

namespace Testing

/-! ## `Add` and `Multiply` of `testing-and-benchmarking.go` -/

/-- C14, as the claim states it, fails: the sum of the largest int and 1 does not fit the
64-bit int, and `Add` returns the smallest int instead of the sum. -/
theorem Add_wraps_around :
    Add 9223372036854775807 1 = -9223372036854775808 ∧
      Add 9223372036854775807 1 ≠ 9223372036854775807 + 1 := by
  decide

/-- C14, amended: for every pair of ints a and b, `Add(a, b)` is the sum a + b reduced
modulo 2^64 into the range of the int (it lies in the range and differs from the sum by a
multiple of 2^64), and it is the sum a + b itself exactly when the sum lies in that range.
The cases of the tests are Add(2, 3) = 5, Add(1, 2) = 3, Add(0, 0) = 0, Add(-1, 1) = 0 and
Add(100, 200) = 300. -/
theorem Add_returns_sum_modulo_wrap (a b : Int) :
    minInt64 ≤ Add a b ∧ Add a b ≤ maxInt64 ∧
      (Add a b - (a + b)) % 18446744073709551616 = 0 ∧
      (Add a b = a + b ↔ minInt64 ≤ a + b ∧ a + b ≤ maxInt64) ∧
      Add 2 3 = 5 ∧ Add 1 2 = 3 ∧ Add 0 0 = 0 ∧ Add (-1) 1 = 0 ∧ Add 100 200 = 300 := by
  have hrange := wrapInt_range (a + b)
  refine ⟨hrange.1, hrange.2, wrapInt_congruent (a + b), ⟨fun h => ?_, fun h => ?_⟩,
    ?_, ?_, ?_, ?_, ?_⟩
  · unfold Add at h
    rw [h] at hrange
    exact hrange
  · exact wrapInt_of_range h.1 h.2
  all_goals decide

/-- C15, as the claim states it, fails: the product of 2^62 and 2 does not fit the 64-bit
int, and `Multiply` returns the smallest int instead of the product. -/
theorem Multiply_wraps_around :
    Multiply 4611686018427387904 2 = -9223372036854775808 ∧
      Multiply 4611686018427387904 2 ≠ 4611686018427387904 * 2 := by
  decide

/-- C15, amended: for every pair of ints a and b, `Multiply(a, b)` is the product a * b
reduced modulo 2^64 into the range of the int (it lies in the range and differs from the
product by a multiple of 2^64), and it is the product a * b itself exactly when the
product lies in that range.  The case of the test is Multiply(3, 4) = 12. -/
theorem Multiply_returns_product_modulo_wrap (a b : Int) :
    minInt64 ≤ Multiply a b ∧ Multiply a b ≤ maxInt64 ∧
      (Multiply a b - a * b) % 18446744073709551616 = 0 ∧
      (Multiply a b = a * b ↔ minInt64 ≤ a * b ∧ a * b ≤ maxInt64) ∧
      Multiply 3 4 = 12 := by
  have hrange := wrapInt_range (a * b)
  refine ⟨hrange.1, hrange.2, wrapInt_congruent (a * b), ⟨fun h => ?_, fun h => ?_⟩, ?_⟩
  · unfold Multiply at h
    rw [h] at hrange
    exact hrange
  · exact wrapInt_of_range h.1 h.2
  · decide

end Testing

namespace Generics

/-! ## The stack of `generics.go` -/

/-- C18: for every stack s and item x, `Pop` after `Push(x)` returns (x, nil) and leaves
the items as they were before the `Push`; `Pop` on an empty stack returns the zero value
with the error "stack is empty" and leaves the stack empty. -/
theorem Pop_after_Push {T : Type} [Inhabited T] (s : Stack T) (x : T) :
    (s.Push x).Pop = ((x, none), s) ∧
      ((s.Push x).Pop).2.items = s.items ∧
      ((({ items := [] } : Stack T).Pop).1.2 = some "stack is empty" ∧
        (({ items := [] } : Stack T).Pop).2.items = []) := by
  have hlen : ¬ (s.items ++ [x]).length = 0 := by simp
  have hpop : (s.Push x).Pop = ((x, none), s) := by
    simp only [Stack.Push, Stack.Pop, hlen, if_false]
    simp [List.getD]
  refine ⟨hpop, by rw [hpop], ?_, ?_⟩ <;> simp [Stack.Pop]

end Generics

namespace Enums

/-! ## `Priority` of `enums.go` -/

/-- C19: `ParsePriority(p.String())` is (p, nil) for each of the four valid priorities;
whenever `ParsePriority(s)` succeeds with p, `p.String()` is s; and `ParsePriority`
returns an error, "invalid priority: s", on every string other than the four names. -/
theorem ParsePriority_inverts_String :
    (∀ p, p ∈ [PriorityLow, PriorityMedium, PriorityHigh, PriorityCritical] →
        ParsePriority (PriorityString p) = (p, none)) ∧
      (∀ s p, ParsePriority s = (p, none) → PriorityString p = s) ∧
      (∀ s, s ∉ ["Low", "Medium", "High", "Critical"] →
        (ParsePriority s).2 = some ("invalid priority: " ++ s)) ∧
      (∀ s, (ParsePriority s).2 = none ↔ s ∈ ["Low", "Medium", "High", "Critical"]) := by
  refine ⟨?_, ?_, ?_, ?_⟩
  · intro p hp
    simp only [List.mem_cons, List.mem_singleton, List.not_mem_nil, or_false] at hp
    rcases hp with rfl | rfl | rfl | rfl <;> decide
  · intro s p h
    unfold ParsePriority at h
    split_ifs at h with h1 h2 h3 h4
    · cases h; rw [h1]; decide
    · cases h; rw [h2]; decide
    · cases h; rw [h3]; decide
    · cases h; rw [h4]; decide
    · simp at h
  · intro s hs
    simp only [List.mem_cons, List.mem_singleton, List.not_mem_nil, or_false, not_or] at hs
    simp [ParsePriority, hs.1, hs.2.1, hs.2.2.1, hs.2.2.2]
  · intro s
    simp only [List.mem_cons, List.mem_singleton, List.not_mem_nil, or_false]
    unfold ParsePriority
    split_ifs with h1 h2 h3 h4 <;> simp [*]

end Enums

namespace TcpServer

/-! ## `handleCommand` of `tcp-server.go` -/

/-- C20, the code at the failing input: for the message "echo Hello" the handler answers
"hello", the text cut from the lower-cased message, not the text "Hello" that was sent. -/
theorem echo_answers_lowercased_text (clock date : String) :
    handleCommand ("echo " ++ "Hello") clock date = "hello" ∧
      handleCommand ("echo " ++ "Hello") clock date ≠ "Hello" := by
  have hmsg : ToLower (TrimSpace ("echo " ++ "Hello")) = "echo hello" := by decide
  have hpre : HasPrefix "echo hello" "echo " = true := by decide
  have hcut : TrimPrefix "echo hello" "echo " = "hello" := by decide
  have hrun : handleCommand ("echo " ++ "Hello") clock date = "hello" := by
    simp only [handleCommand, hmsg, hpre, hcut]
    simp
  rw [hrun]
  exact ⟨rfl, by decide⟩

end TcpServer

namespace Recursion

/-! ## Binary search and greatest common divisor of `recursion.go` -/

theorem index_eq_some {arr : List Int} {i v : Int} :
    index arr i = some v ↔ 0 ≤ i ∧ arr[i.toNat]? = some v := by
  unfold index
  split_ifs with h
  · simp [h]
  · simp [h]

/-- In a slice sorted in ascending order the elements grow with the index. -/
theorem sorted_getElem?_le {arr : List Int} (hs : List.Sorted (fun x y => x ≤ y) arr)
    {i j : Nat} {x y : Int} (hij : i ≤ j) (hi : arr[i]? = some x) (hj : arr[j]? = some y) :
    x ≤ y := by
  obtain ⟨hi1, hi2⟩ := List.getElem?_eq_some.mp hi
  obtain ⟨hj1, hj2⟩ := List.getElem?_eq_some.mp hj
  rcases Nat.eq_or_lt_of_le hij with heq | hlt
  · subst heq
    rw [← hi2, ← hj2]
  · have h := List.pairwise_iff_getElem.mp hs i j hi1 hj1 hlt
    rw [hi2, hj2] at h
    exact h

/-- The search on a window `left .. right` of valid indices that holds every position of the
target, with room for the recursion: it returns, with an index of the target when the
target occurs and -1 when it does not. -/
theorem binarySearch_window (arr : List Int) (target : Int)
    (hs : List.Sorted (fun x y => x ≤ y) arr) (hlen : (arr.length : Int) ≤ maxInt64)
    (fuel : Nat) :
    ∀ (left right : Int), 0 ≤ left → right < arr.length → left ≤ right + 1 →
      right - left + 1 < fuel →
      (∀ k : Nat, arr[k]? = some target → left ≤ k ∧ (k : Int) ≤ right) →
      ∃ i, binarySearch fuel arr target left right = Exec.returned i ∧
        (target ∈ arr → index arr i = some target) ∧ (target ∉ arr → i = -1) := by
  have hmax : maxInt64 = 9223372036854775807 := rfl
  have hmin : minInt64 = -9223372036854775808 := rfl
  induction fuel with
  | zero =>
    intro left right h0 h1 h2 h3 _
    omega
  | succ fuel ih =>
    intro left right h0 h1 h2 h3 hwin
    by_cases hgt : left > right
    · refine ⟨-1, by simp only [binarySearch, hgt, if_true], ?_, fun _ => rfl⟩
      intro hmem
      obtain ⟨k, hk⟩ := List.mem_iff_getElem?.mp hmem
      have := hwin k hk
      omega
    · have hd : wrapInt (right - left) = right - left :=
        wrapInt_of_range (by omega) (by omega)
      have hhalf : Int.tdiv (right - left) 2 = (right - left) / 2 :=
        Int.tdiv_eq_ediv (by omega) (by decide)
      have hmid : wrapInt (left + (right - left) / 2) = left + (right - left) / 2 :=
        wrapInt_of_range (by omega) (by omega)
      have hm0 : 0 ≤ left + (right - left) / 2 := by omega
      have hm1 : left + (right - left) / 2 < arr.length := by omega
      have hm2 : left ≤ left + (right - left) / 2 := by omega
      have hm3 : left + (right - left) / 2 ≤ right := by omega
      generalize hmdef : left + (right - left) / 2 = mid at hmid hm0 hm1 hm2 hm3
      have hlt : mid.toNat < arr.length := by omega
      have hget : arr[mid.toNat]? = some arr[mid.toNat] := List.getElem?_eq_getElem hlt
      have hidx : index arr mid = some arr[mid.toNat] := index_eq_some.mpr ⟨hm0, hget⟩
      have hdown : wrapInt (mid - 1) = mid - 1 := wrapInt_of_range (by omega) (by omega)
      have hup : wrapInt (mid + 1) = mid + 1 := wrapInt_of_range (by omega) (by omega)
      by_cases heq : arr[mid.toNat] = target
      · refine ⟨mid, ?_, fun _ => heq ▸ hidx, ?_⟩
        · simp only [binarySearch, hgt, if_false, hd, hhalf, hmdef, hmid, hidx, heq, if_true]
        · intro hnot
          exact absurd (List.mem_iff_getElem?.mpr ⟨mid.toNat, heq ▸ hget⟩) hnot
      · by_cases hbig : arr[mid.toNat] > target
        · obtain ⟨i, hi, hfound, hnone⟩ := ih left (mid - 1) h0 (by omega) (by omega)
            (by omega) (by
              intro k hk
              have hw := hwin k hk
              refine ⟨hw.1, ?_⟩
              by_contra hcon
              have hle := sorted_getElem?_le hs (i := mid.toNat) (j := k) (by omega) hget hk
              omega)
          refine ⟨i, ?_, hfound, hnone⟩
          simp only [binarySearch, hgt, if_false, hd, hhalf, hmdef, hmid, hidx, heq, hbig,
            if_true, hdown, hi]
        · obtain ⟨i, hi, hfound, hnone⟩ := ih (mid + 1) right (by omega) h1 (by omega)
            (by omega) (by
              intro k hk
              have hw := hwin k hk
              refine ⟨?_, hw.2⟩
              by_contra hcon
              have hle := sorted_getElem?_le hs (i := k) (j := mid.toNat) (by omega) hk hget
              omega)
          refine ⟨i, ?_, hfound, hnone⟩
          simp only [binarySearch, hgt, if_false, hd, hhalf, hmdef, hmid, hidx, heq, hbig,
            hup, hi]

/-- C16: for a slice sorted in ascending order (of a length that is an int) and every
target, `binarySearch(arr, target, 0, len(arr)-1)`, given room for `len(arr) + 1` nested
calls, returns without a panic: an index i with `arr[i] == target` when the target occurs
in arr, and -1 when it does not. -/
theorem binarySearch_finds_target (arr : List Int) (target : Int) (fuel : Nat)
    (hs : List.Sorted (fun x y => x ≤ y) arr) (hlen : (arr.length : Int) ≤ maxInt64)
    (hfuel : arr.length < fuel) :
    ∃ i, binarySearch fuel arr target 0 (arr.length - 1) = Exec.returned i ∧
      (target ∈ arr → index arr i = some target) ∧ (target ∉ arr → i = -1) := by
  refine binarySearch_window arr target hs hlen fuel 0 (arr.length - 1) (le_refl 0)
    (by omega) (by omega) (by omega) ?_
  intro k hk
  obtain ⟨hk1, _⟩ := List.getElem?_eq_some.mp hk
  omega

/-- Instance for the slice and the first target of the example. -/
theorem binarySearch_finds_target_witness :
    ∃ i, binarySearch 11 sorted 7 0 (sorted.length - 1) = Exec.returned i ∧
      (7 ∈ sorted → index sorted i = some 7) ∧ (7 ∉ sorted → i = -1) :=
  binarySearch_finds_target sorted 7 11 (by decide) (by decide) (by decide)

/-- On natural numbers `gcd` computes the greatest common divisor. -/
theorem gcd_natCast (n : Nat) : ∀ m : Nat, gcd (m : Int) (n : Int) = (Nat.gcd m n : Int) := by
  induction n using Nat.strong_induction_on with
  | _ n ih =>
    intro m
    rw [gcd]
    by_cases hn : n = 0
    · subst hn
      simp
    · have hne : ¬ (n : Int) = 0 := by omega
      rw [if_neg hne, ← Int.ofNat_tmod, ih (m % n) (Nat.mod_lt _ (by omega)) n]
      rw [Nat.gcd_comm m n, Nat.gcd_rec n m, Nat.gcd_comm]

/-- C17: for non-negative ints a and b, `gcd(a, b)` (a total function: each recursive call
has a second argument of smaller size) is non-negative, divides a and b, and is divided by
every common divisor of a and b; gcd(48, 18) = 6 and gcd(17, 23) = 1. -/
theorem gcd_is_greatest_common_divisor (a b : Int) (ha : 0 ≤ a) (hb : 0 ≤ b) :
    0 ≤ gcd a b ∧ gcd a b ∣ a ∧ gcd a b ∣ b ∧
      (∀ d : Int, d ∣ a → d ∣ b → d ∣ gcd a b) ∧
      gcd 48 18 = 6 ∧ gcd 17 23 = 1 := by
  obtain ⟨m, rfl⟩ := Int.eq_ofNat_of_zero_le ha
  obtain ⟨n, rfl⟩ := Int.eq_ofNat_of_zero_le hb
  have h48 : gcd 48 18 = 6 := by
    have h := gcd_natCast 18 48
    simpa using h
  have h17 : gcd 17 23 = 1 := by
    have h := gcd_natCast 23 17
    simpa using h
  rw [gcd_natCast]
  refine ⟨Int.natCast_nonneg _, Int.natCast_dvd_natCast.mpr (Nat.gcd_dvd_left m n),
    Int.natCast_dvd_natCast.mpr (Nat.gcd_dvd_right m n), ?_, h48, h17⟩
  intro d hda hdb
  have h := Int.dvd_gcd hda hdb
  rwa [Int.gcd_natCast_natCast] at h

/-- Instance for the first pair of the example. -/
theorem gcd_is_greatest_common_divisor_witness :
    (0 : Int) ≤ 48 ∧ (0 : Int) ≤ 18 ∧
      (0 ≤ gcd 48 18 ∧ gcd 48 18 ∣ 48 ∧ gcd 48 18 ∣ 18 ∧
        (∀ d : Int, d ∣ 48 → d ∣ 18 → d ∣ gcd 48 18) ∧
        gcd 48 18 = 6 ∧ gcd 17 23 = 1) :=
  ⟨by decide, by decide, gcd_is_greatest_common_divisor 48 18 (by decide) (by decide)⟩

end Recursion

namespace Timeouts

/-! ## The statement after the loop of `operationWithRetry` -/

/-- With maxRetries >= 1 the loop returns from inside on its last attempt at the latest: the
statement after the loop is not reached. -/
theorem retryLoop_returns_inside (maxRetries : Int) (timesOut : Int → Bool)
    (hint : maxRetries ≤ maxInt64) (n : Nat) :
    ∀ (a : Int) (attempts fuel : Nat), 1 ≤ a → maxRetries - a + 1 = (n : Int) + 1 →
      n + 1 ≤ fuel →
      ∃ r, retryLoop maxRetries timesOut fuel a attempts = Exec.returned r ∧
        r.err ≠ some errNotReached := by
  intro a attempts fuel ha hn hfuel
  obtain ⟨r, hr, _, _, hfirst, hall⟩ :=
    retryLoop_returns maxRetries timesOut hint n a attempts fuel ha hn hfuel
  refine ⟨r, hr, ?_⟩
  intro herr
  by_cases hevery : ∀ i, a ≤ i → i ≤ maxRetries → timesOut i = true
  · have h := hall.mpr hevery
    rw [herr] at h
    exact errFailedAfter_ne_errNotReached maxRetries (Option.some.inj h).symm
  · have hex : ∃ j : Nat, timesOut (a + j) = false ∧ a + j ≤ maxRetries := by
      by_contra hno
      apply hevery
      intro i hi1 hi2
      by_contra hi
      apply hno
      refine ⟨(i - a).toNat, ?_, ?_⟩
      · have : a + ((i - a).toNat : Int) = i := by omega
        rw [this]
        simpa using hi
      · omega
    classical
    have hmin : ∀ m : Nat, m < Nat.find hex →
        ¬ (timesOut (a + m) = false ∧ a + m ≤ maxRetries) := fun m h => Nat.find_min hex h
    obtain ⟨hk, hkle⟩ := Nat.find_spec hex
    obtain ⟨_, hnone, _⟩ := hfirst (a + (Nat.find hex : Nat)) (by omega) hkle hk (by
      intro i hi1 hi2
      by_contra hi
      have hlt : (i - a).toNat < Nat.find hex := by omega
      apply hmin _ hlt
      have : a + ((i - a).toNat : Int) = i := by omega
      rw [this]
      exact ⟨by simpa using hi, by omega⟩)
    rw [hnone] at herr
    cases herr

/-- The statement after the loop is reached exactly when maxRetries is below 1. -/
theorem not_reached_iff_positive (maxRetries : Int) (timesOut : Int → Bool) (fuel : Nat)
    (hint : maxRetries ≤ maxInt64) (hfuel : maxRetries < (fuel : Int)) (hpos : 0 < fuel) :
    (∃ r, operationWithRetry fuel maxRetries timesOut = Exec.returned r ∧
        r.err = some errNotReached) ↔ maxRetries < 1 := by
  obtain ⟨f, rfl⟩ : ∃ f, fuel = f + 1 := ⟨fuel - 1, by omega⟩
  constructor
  · rintro ⟨r, hr, herr⟩
    by_contra hge
    obtain ⟨n, hn⟩ : ∃ n : Nat, maxRetries = (n : Int) + 1 :=
      ⟨(maxRetries - 1).toNat, by omega⟩
    obtain ⟨r2, hr2, hne⟩ := retryLoop_returns_inside maxRetries timesOut hint n 1 0 (f + 1)
      (le_refl 1) (by omega) (by omega)
    unfold operationWithRetry at hr
    rw [hr] at hr2
    cases hr2
    exact hne herr
  · intro hlt
    have hnot : ¬ (1 : Int) ≤ maxRetries := by omega
    have hrun : operationWithRetry (f + 1) maxRetries timesOut = Exec.returned
        { result := "", err := some errNotReached, attempts := 0 } := by
      simp only [operationWithRetry, retryLoop, hnot, if_false]
    exact ⟨_, hrun, rfl⟩

/-- C21, the code at the failing input: `operationWithRetry(0, timeout)` starts no attempt
(the loop condition `1 <= 0` fails at once) and returns from the statement after the loop
with the error "should not reach here", whatever the timeout does. -/
theorem final_statement_reached_without_retries (timesOut : Int → Bool) (fuel : Nat) :
    operationWithRetry (fuel + 1) 0 timesOut
      = Exec.returned { result := "", err := some "should not reach here", attempts := 0 } := by
  simp [operationWithRetry, retryLoop, errNotReached]

end Timeouts

namespace Recursion

/-! ## The Fibonacci functions of `recursion.go` -/

theorem MemoOk_store {memo : Memo} (h : MemoOk memo) (k : Int) :
    MemoOk (memo.store k (fibonacci k)) := by
  intro x v hx
  unfold Memo.store at hx
  split_ifs at hx with hk
  · cases hx
    rw [hk]
  · exact h x v hx

/-- On a map that holds only Fibonacci values, `memoizedFibonacci` returns the value of
`fibonacci` and leaves such a map. -/
theorem memoizedFibonacci_spec (d : Nat) :
    ∀ (n : Int) (memo : Memo), n.toNat = d → MemoOk memo →
      (memoizedFibonacci n memo).1 = fibonacci n ∧ MemoOk (memoizedFibonacci n memo).2 ∧
      (1 < n → (memoizedFibonacci n memo).2 n = some (fibonacci n)) := by
  induction d using Nat.strong_induction_on with
  | _ d ih =>
    intro n memo hd hok
    rw [memoizedFibonacci]
    by_cases hn : n ≤ 1
    · rw [if_pos hn, fibonacci, if_pos hn]
      exact ⟨rfl, hok, fun h => absurd h (by omega)⟩
    · rw [if_neg hn]
      cases hm : memo n with
      | some val =>
        simp only
        exact ⟨hok n val hm, hok, fun _ => by rw [hm, hok n val hm]⟩
      | none =>
        simp only
        have hlt1 : (wrapInt (n - 1)).toNat < d := by unfold wrapInt; omega
        have hlt2 : (wrapInt (n - 2)).toNat < d := by unfold wrapInt; omega
        obtain ⟨e1, ok1, _⟩ := ih _ hlt1 (wrapInt (n - 1)) memo rfl hok
        obtain ⟨e2, ok2, _⟩ := ih _ hlt2 (wrapInt (n - 2))
          (memoizedFibonacci (wrapInt (n - 1)) memo).2 rfl ok1
        have hfib : wrapInt ((memoizedFibonacci (wrapInt (n - 1)) memo).1 +
            (memoizedFibonacci (wrapInt (n - 2))
              (memoizedFibonacci (wrapInt (n - 1)) memo).2).1) = fibonacci n := by
          rw [e1, e2]
          conv_rhs => rw [fibonacci, if_neg hn]
        rw [hfib]
        refine ⟨?_, MemoOk_store ok2 n, fun _ => ?_⟩
        · simp [Memo.read, Memo.store]
        · simp [Memo.store]

/-- C22: for every int n, `memoizedFibonacci(n, memo)` started with an empty memo returns
the value of the plain recursive `fibonacci(n)`, every entry of memo afterwards, at a key k,
is `fibonacci(k)`, and for n > 1 the entry at key n has been stored. -/
theorem memoizedFibonacci_eq_fibonacci (n : Int) :
    (memoizedFibonacci n emptyMemo).1 = fibonacci n ∧
      (∀ k v, (memoizedFibonacci n emptyMemo).2 k = some v → v = fibonacci k) ∧
      (1 < n → (memoizedFibonacci n emptyMemo).2 n = some (fibonacci n)) := by
  have hempty : MemoOk emptyMemo := by
    intro k v h
    cases h
  exact memoizedFibonacci_spec n.toNat n emptyMemo rfl hempty

end Recursion

namespace CustomErrors

/-! ## `NextDelay` of `custom-errors.go` -/

/-- C12, as the claim states it, fails: with an initial delay of 3 ns, a factor of 0.5 and
one attempt made, min(InitialDelay * BackoffFactor^a, MaxDelay) is 1.5 ns, and `NextDelay`
returns a `time.Duration`, a whole number of nanoseconds (1 ns, the product 1.5 converted),
so whatever the conversion yields the value returned is not that minimum. -/
theorem NextDelay_is_whole_nanoseconds :
    0 ≤ halvingErr.Attempt ∧
      specNextDelay halvingErr = 3 / 2 ∧
      NextDelay halvingErr 1 = 1 ∧
      ¬ ∃ converted : Int, ((NextDelay halvingErr converted : Int) : ℚ)
          = specNextDelay halvingErr := by
  have hspec : specNextDelay halvingErr = 3 / 2 := by
    norm_num [specNextDelay, halvingErr]
  refine ⟨by decide, hspec, by decide, ?_⟩
  rintro ⟨converted, h⟩
  rw [hspec] at h
  have h2 : ((2 * NextDelay halvingErr converted : Int) : ℚ) = ((3 : Int) : ℚ) := by
    push_cast
    rw [h]
    norm_num
  have h3 : 2 * NextDelay halvingErr converted = 3 := by exact_mod_cast h2
  omega

/-- C12, amended: `NextDelay` returns min(d, MaxDelay), where d is the whole number of
nanoseconds that the conversion of the float product InitialDelay * BackoffFactor^a to a
`time.Duration` yields; it never exceeds MaxDelay, and it is
min(InitialDelay * BackoffFactor^a, MaxDelay) whenever d is that product exactly, as in the
example (1 s, factor 2, one attempt made: 2 s). -/
theorem NextDelay_caps_converted_delay (re : RetryableError) (converted : Int) :
    NextDelay re converted = min converted re.RetryPolicy.MaxDelay ∧
      NextDelay re converted ≤ re.RetryPolicy.MaxDelay ∧
      ((converted : ℚ)
          = (re.RetryPolicy.InitialDelay : ℚ) * re.RetryPolicy.BackoffFactor ^ re.Attempt.toNat →
        ((NextDelay re converted : Int) : ℚ) = specNextDelay re) ∧
      (NextDelay retryErr 2000000000 = 2000000000 ∧
        specNextDelay retryErr = 2000000000) := by
  have hmin : NextDelay re converted = min converted re.RetryPolicy.MaxDelay := by
    unfold NextDelay
    simp only
    split_ifs with h
    · exact (min_eq_right (le_of_lt h)).symm
    · exact (min_eq_left (not_lt.mp h)).symm
  refine ⟨hmin, ?_, ?_, by decide, ?_⟩
  · rw [hmin]
    exact min_le_right _ _
  · intro hexact
    rw [hmin, specNextDelay, ← hexact]
    exact Int.cast_min
  · norm_num [specNextDelay, retryErr]

end CustomErrors

end GoByExample
